import Mathlib

/-!
Verification development for the Game-Save-Manager path-template engine.

The definitions below are a shallow embedding of the TypeScript sources
`src/main/utils.ts`, `src/main/backup.ts` (backup and restore halves) and the
`placeholderMapping` / `placeholderIdentifier` tables of `src/main/global.ts`.

Modelling conventions:
- JavaScript strings are Lean `String`s (operated on via their `List Char`);
  `null`/`undefined` string values are `Option String`, and the JS coercion
  `String(null) = "null"` performed by `String.prototype.replace` and by
  template-literal style contexts is the function `jsStr`.
- A thrown exception is `Option.none` in a function's result.
- The filesystem is a finite forest of named nodes, each carrying its own
  stat mtime in milliseconds; `glob.sync` is modelled as filtering the
  enumeration of all paths (joined with `/`) by `*`-wildcard matching.
- `path.sep` is the Windows separator `\`, the platform on which every
  feature of the program (registry, storefront detection) is active.
- `path.win32.join` is modelled as join-with-`\` of the non-empty parts
  followed by separator normalization; `.`/`..` segment resolution is not
  modelled, so the model is used only on inputs without such segments: the
  amended round-trip class excludes the `.` and `..` segments explicitly,
  and no concrete input here contains them.
-/

namespace GSM

/-- The literal character U+007B (opening curly brace). -/
def lbr : Char := '\x7b'

/-- The literal character U+007D (closing curly brace). -/
def rbr : Char := '\x7d'

/-- JS string coercion of a nullable string: String(null) = "null". -/
def jsStr : Option String → String
  | none => "null"
  | some s => s

/-- Separator characters recognized on Windows paths. -/
def isSep (c : Char) : Bool := c = '/' || c = '\\'

/-- The character image of String.prototype.toLowerCase, ASCII range. -/
def lowerStr (s : String) : String := ⟨s.data.map Char.toLower⟩

/-- The character rewrite of the source regex replace(/\\/g, '/'). -/
def bs2slash (c : Char) : Char := if c = '\\' then '/' else c

/-- String form of replace(/\\/g, '/'). -/
def slashify (s : String) : String := ⟨s.data.map bs2slash⟩

/-- Decidable check that a list is a prefix of another, mirroring
JS String.prototype.startsWith at character level. -/
def isPrefixL : List Char → List Char → Bool
  | [], _ => true
  | _ :: _, [] => false
  | a :: as, b :: bs => a = b && isPrefixL as bs

/-- Decidable substring containment, mirroring JS String.prototype.includes. -/
def hasSubL (pat : List Char) : List Char → Bool
  | [] => pat.isEmpty
  | c :: cs => isPrefixL pat (c :: cs) || hasSubL pat cs

/-- String wrapper for substring containment. -/
def containsSub (s pat : String) : Bool := hasSubL pat.data s.data

/-- The token-body character class of the placeholder regex: any character
other than the closing brace. -/
def notRbr (c : Char) : Bool := c ≠ rbr

/-- Match one `\x7b\x7bp|...\x7d\x7d` placeholder token at the head of the
character list: the anchored form of the source regex
/\x7b\x7bp\|[^\x7d]+\x7d\x7d/i, returning the token and the remainder. -/
def tryTok : List Char → Option (List Char × List Char)
  | a :: b :: p :: bar :: rest =>
    if a = lbr ∧ b = lbr ∧ (p = 'p' ∨ p = 'P') ∧ bar = '|' then
      match rest.takeWhile notRbr, rest.dropWhile notRbr with
      | [], _ => none
      | body, c1 :: c2 :: rest3 =>
        if c1 = rbr ∧ c2 = rbr then some (a :: b :: p :: bar :: (body ++ [rbr, rbr]), rest3)
        else none
      | _, _ => none
    else none
  | _ => none

theorem length_dropWhile_le (p : α → Bool) (l : List α) :
    (l.dropWhile p).length ≤ l.length := by
  induction l with
  | nil => simp
  | cons c cs ih =>
    rw [List.dropWhile_cons]
    split
    · exact Nat.le_succ_of_le ih
    · simp

theorem tryTok_length {l tok rest : List Char} (h : tryTok l = some (tok, rest)) :
    rest.length < l.length := by
  match l with
  | [] => simp [tryTok] at h
  | [a] => simp [tryTok] at h
  | [a, b] => simp [tryTok] at h
  | [a, b, c] => simp [tryTok] at h
  | a :: b :: p :: bar :: rest0 =>
    have hlen : (rest0.dropWhile notRbr).length ≤ rest0.length :=
      length_dropWhile_le _ _
    simp only [tryTok] at h
    split at h
    · split at h
      · exact absurd h (by simp)
      · rename_i heq2 heq1
        split at h
        · injection h with h1
          injection h1 with h1 h2
          subst h2
          rw [heq2] at hlen
          simp at hlen
          simp
          omega
        · exact absurd h (by simp)
      · exact absurd h (by simp)
    · exact absurd h (by simp)

/-- Global left-to-right replacement of placeholder tokens, mirroring the
source String.prototype.replace with the /\x7b\x7bp\|[^\x7d]+\x7d\x7d/gi
regex and a callback. -/
def replTokAux (f : String → String) : List Char → List Char
  | [] => []
  | c :: cs =>
    match h : tryTok (c :: cs) with
    | some (tok, rest) => (f ⟨tok⟩).data ++ replTokAux f rest
    | none => c :: replTokAux f cs
termination_by l => l.length
decreasing_by
  · exact tryTok_length h
  · simp

theorem replTokAux_cons (f : String → String) (c : Char) (cs : List Char) :
    replTokAux f (c :: cs) =
      match tryTok (c :: cs) with
      | some (tok, rest) => (f ⟨tok⟩).data ++ replTokAux f rest
      | none => c :: replTokAux f cs := by
  rw [replTokAux]
  rcases htt : tryTok (c :: cs) with _ | ⟨tok, rest⟩ <;> simp [htt]

theorem replTokAux_nil (f : String → String) : replTokAux f [] = [] := by
  rw [replTokAux]

/-- Scan for the presence of a placeholder token anywhere in the list. -/
def hasTokL : List Char → Bool
  | [] => false
  | c :: cs => (tryTok (c :: cs)).isSome || hasTokL cs

/-- The characters of the canonical uid sentinel token. -/
def uidTokStr : String := "\x7b\x7bp|uid\x7d\x7d"

/-- Case-insensitive test that the uid sentinel starts at the head, as the
/\x7b\x7bp\|uid\x7d\x7d/gi literal regex matches. -/
def uidAtHead (l : List Char) : Bool :=
  (l.take 9).map Char.toLower = uidTokStr.data

/-- Global case-insensitive replacement of the uid sentinel by a fixed
string, mirroring basePath.replace(/\x7b\x7bp\|uid\x7d\x7d/gi, rep). -/
def replUidAux (rep : List Char) : List Char → List Char
  | [] => []
  | c :: cs =>
    if uidAtHead (c :: cs) then rep ++ replUidAux rep (cs.drop 8)
    else c :: replUidAux rep cs
termination_by l => l.length
decreasing_by
  · simp only [List.length_cons]
    have := List.length_drop 8 cs
    omega
  · simp

/-- String wrapper for uid replacement. -/
def replaceUid (s rep : String) : String := ⟨replUidAux rep.data s.data⟩

/-- Character-level split on a separator predicate, with the JS
String.prototype.split semantics: the empty string yields one empty part. -/
def splitL (sep : Char → Bool) : List Char → List (List Char)
  | [] => [[]]
  | c :: cs =>
    let r := splitL sep cs
    if sep c then [] :: r else (c :: r.headI) :: r.tail

/-- String wrapper for the character-level split. -/
def jsSplit (s : String) (sep : Char → Bool) : List String :=
  (splitL sep s.data).map (fun l => ⟨l⟩)

/-- Join a list of character lists with the Windows separator. -/
def joinSepL : List (List Char) → List Char
  | [] => []
  | [x] => x
  | x :: xs => x ++ '\\' :: joinSepL xs

/-- Machine-dependent values of the static placeholder table of global.ts
(environment variables and the user's home directory). -/
structure MachineEnv where
  username : String
  userprofile : String
  documents : String
  locallow : String
  appdata : String
  localappdata : String
  programfiles : String
  programdata : String
  publicDir : String
  windir : String
  osxhome : String
  linuxhome : String
  xdgdatahome : String
  xdgconfighome : String

/-- The placeholderMapping table of global.ts: canonical token to its
machine value. -/
def placeholderMapping (env : MachineEnv) : List (String × String) :=
  [("\x7b\x7bp|username\x7d\x7d", env.username),
   ("\x7b\x7bp|userprofile\x7d\x7d", env.userprofile),
   ("\x7b\x7bp|userprofile/documents\x7d\x7d", env.documents),
   ("\x7b\x7bp|userprofile/appdata/locallow\x7d\x7d", env.locallow),
   ("\x7b\x7bp|appdata\x7d\x7d", env.appdata),
   ("\x7b\x7bp|localappdata\x7d\x7d", env.localappdata),
   ("\x7b\x7bp|programfiles\x7d\x7d", env.programfiles),
   ("\x7b\x7bp|programdata\x7d\x7d", env.programdata),
   ("\x7b\x7bp|public\x7d\x7d", env.publicDir),
   ("\x7b\x7bp|windir\x7d\x7d", env.windir),
   ("\x7b\x7bp|hkcu\x7d\x7d", "HKEY_CURRENT_USER"),
   ("\x7b\x7bp|hklm\x7d\x7d", "HKEY_LOCAL_MACHINE"),
   ("\x7b\x7bp|wow64\x7d\x7d", "HKEY_LOCAL_MACHINE\\SOFTWARE\\WOW6432Node"),
   ("\x7b\x7bp|osxhome\x7d\x7d", env.osxhome),
   ("\x7b\x7bp|linuxhome\x7d\x7d", env.linuxhome),
   ("\x7b\x7bp|xdgdatahome\x7d\x7d", env.xdgdatahome),
   ("\x7b\x7bp|xdgconfighome\x7d\x7d", env.xdgconfighome)]

/-- The placeholderIdentifier table of global.ts: canonical token to its
numbered marker. -/
def placeholderIdentifier : List (String × String) :=
  [("\x7b\x7bp|username\x7d\x7d", "\x7b\x7bp1\x7d\x7d"),
   ("\x7b\x7bp|userprofile\x7d\x7d", "\x7b\x7bp2\x7d\x7d"),
   ("\x7b\x7bp|userprofile/documents\x7d\x7d", "\x7b\x7bp3\x7d\x7d"),
   ("\x7b\x7bp|userprofile/appdata/locallow\x7d\x7d", "\x7b\x7bp4\x7d\x7d"),
   ("\x7b\x7bp|appdata\x7d\x7d", "\x7b\x7bp5\x7d\x7d"),
   ("\x7b\x7bp|localappdata\x7d\x7d", "\x7b\x7bp6\x7d\x7d"),
   ("\x7b\x7bp|programfiles\x7d\x7d", "\x7b\x7bp7\x7d\x7d"),
   ("\x7b\x7bp|programdata\x7d\x7d", "\x7b\x7bp8\x7d\x7d"),
   ("\x7b\x7bp|public\x7d\x7d", "\x7b\x7bp9\x7d\x7d"),
   ("\x7b\x7bp|windir\x7d\x7d", "\x7b\x7bp10\x7d\x7d"),
   ("\x7b\x7bp|game\x7d\x7d", "\x7b\x7bp11\x7d\x7d"),
   ("\x7b\x7bp|uid\x7d\x7d", "\x7b\x7bp12\x7d\x7d"),
   ("\x7b\x7bp|steam\x7d\x7d", "\x7b\x7bp13\x7d\x7d"),
   ("\x7b\x7bp|uplay\x7d\x7d", "\x7b\x7bp14\x7d\x7d"),
   ("\x7b\x7bp|ubisoftconnect\x7d\x7d", "\x7b\x7bp14\x7d\x7d"),
   ("\x7b\x7bp|hkcu\x7d\x7d", "\x7b\x7bp15\x7d\x7d"),
   ("\x7b\x7bp|hklm\x7d\x7d", "\x7b\x7bp16\x7d\x7d"),
   ("\x7b\x7bp|wow64\x7d\x7d", "\x7b\x7bp17\x7d\x7d"),
   ("\x7b\x7bp|osxhome\x7d\x7d", "\x7b\x7bp18\x7d\x7d"),
   ("\x7b\x7bp|linuxhome\x7d\x7d", "\x7b\x7bp19\x7d\x7d"),
   ("\x7b\x7bp|xdgdatahome\x7d\x7d", "\x7b\x7bp20\x7d\x7d"),
   ("\x7b\x7bp|xdgconfighome\x7d\x7d", "\x7b\x7bp21\x7d\x7d")]

/-- JS object property lookup on an association-list table. -/
def lookupA (m : List (String × String)) (k : String) : Option String :=
  (m.find? (fun e => e.1 == k)).map (·.2)

/-- The findKeyByValue helper of utils.ts: first key mapped to a value. -/
def findKeyByValue (m : List (String × String)) (v : String) : Option String :=
  (m.find? (fun e => e.2 == v)).map (·.1)

/-- The storefront roots and logged-in user ids held by the GameData
singleton of gameData.ts; all are null until detected. -/
structure GameData where
  steamPath : Option String
  ubisoftPath : Option String
  currentSteamUserId64 : Option String
  currentSteamUserId3 : Option String
  currentUbisoftUserId : Option String

/-- Case and separator normalization of a matched token:
match.toLowerCase().replace(/\\/g, '/'). -/
def normalizeMatch (tok : String) : String :=
  ⟨(tok.data.map Char.toLower).map bs2slash⟩

/-- The substitution callback of resolveTemplatedBackupPath (utils.ts,
lines 78-93): switch over the normalized token. -/
def resolveCb (env : MachineEnv) (gd : GameData) (g : Option String) (tok : String) : String :=
  let n := normalizeMatch tok
  if n = "\x7b\x7bp|game\x7d\x7d" then jsStr g
  else if n = "\x7b\x7bp|steam\x7d\x7d" then jsStr gd.steamPath
  else if n = "\x7b\x7bp|uplay\x7d\x7d" ∨ n = "\x7b\x7bp|ubisoftconnect\x7d\x7d" then
    jsStr gd.ubisoftPath
  else if n = uidTokStr then uidTokStr
  else
    match lookupA (placeholderMapping env) n with
    | some v => if v = "" then tok else v
    | none => tok

/-- The placeholder substitution pass of resolveTemplatedBackupPath. -/
def substTemplate (env : MachineEnv) (gd : GameData) (g : Option String)
    (templatedPath : String) : String :=
  ⟨replTokAux (resolveCb env gd g) templatedPath.data⟩

/-- The unresolved-placeholder test of utils.ts line 95: lowercase the
substituted path, erase uid sentinels, and look for a remaining token. -/
def unresolvedRemains (basePath : String) : Bool :=
  hasTokL (replUidAux [] (basePath.data.map Char.toLower))

/-- Result record of resolveTemplatedBackupPath: the resolved path and the
optional uid; a missing uid property is none. -/
structure ResolvedRet where
  path : String
  uid : Option String
deriving DecidableEq, Repr

/-- A filesystem node: a file or a directory, each with its own stat
mtime (in milliseconds) and directories with named children. -/
inductive FTree where
  | file (mtime : Nat)
  | dir (mtime : Nat) (children : List (String × FTree))

/-- A filesystem: the forest of root entries. -/
abbrev FS := List (String × FTree)

/-- Lookup of a directly named child in a children list. -/
def childNamed (cs : List (String × FTree)) (name : String) : Option FTree :=
  (cs.find? (fun e => e.1 == name)).map (·.2)

/-- Walk a segment path down the forest. -/
def findEntry : FS → List String → Option FTree
  | _, [] => none
  | roots, [s] => childNamed roots s
  | roots, s :: rest =>
    match childNamed roots s with
    | some (.dir _ cs) => findEntry cs rest
    | _ => none

/-- Split a path string into its non-empty segments (Node accepts both
separators on Windows). -/
def pathSegsOf (p : String) : List String :=
  (jsSplit p (fun c => isSep c)).filter (fun s => s ≠ "")

/-- The stat of a path: its node, when the path exists. -/
def statEntry (fs : FS) (p : String) : Option FTree := findEntry fs (pathSegsOf p)

/-- fs.existsSync. -/
def jsExists (fs : FS) (p : String) : Bool := (statEntry fs p).isSome

/-- The stat mtime of a node itself (stats.mtimeMs). -/
def ownMtime : FTree → Nat
  | .file m => m
  | .dir m _ => m

/-- stats.mtimeMs of a path, none when statSync would throw. -/
def statMtimeMs (fs : FS) (p : String) : Option Nat := (statEntry fs p).map ownMtime

/-- The suffixes of a path reachable by deleting zero or more leading
characters none of which is the segment separator: the positions a glob *
may stop at. -/
def starSuffixes : List Char → List (List Char)
  | [] => [[]]
  | c :: cs => (c :: cs) :: (if c = '/' then [] else starSuffixes cs)

/-- Wildcard matching of a glob pattern against a path: a * matches any
run of characters other than the segment separator /. -/
def wildMatch : List Char → List Char → Bool
  | [], s => s.isEmpty
  | '*' :: ps, s => (starSuffixes s).any (fun suf => wildMatch ps suf)
  | p :: ps, s =>
    match s with
    | [] => false
    | c :: cs => p = c && wildMatch ps cs

mutual
/-- All slash-joined paths of one named tree, in depth-first order. -/
def allPathsTree (pre : String) : String × FTree → List String
  | (name, t) => (pre ++ name) :: allPathsUnder (pre ++ name ++ "/") t

/-- All slash-joined paths strictly under a node. -/
def allPathsUnder (pre : String) : FTree → List String
  | .file _ => []
  | .dir _ [] => []
  | .dir m (c :: cs) => allPathsTree pre c ++ allPathsUnder pre (.dir m cs)
end

/-- The enumeration of every path of the filesystem. -/
def allPaths (fs : FS) : List String :=
  fs.flatMap (fun e => allPathsTree "" e)

/-- glob.sync: the existing paths matching the pattern. -/
def globSync (fs : FS) (pattern : String) : List String :=
  (allPaths fs).filter (fun p => wildMatch pattern.data p.data)

/-- The accumulator loop of findLatestModifiedPath (utils.ts 141-154):
strict greater-than update over stats.mtimeMs, none when a stat throws. -/
def findLatestGo (fs : FS) : List String → Option String → Nat → Option (Option String)
  | [], best, _ => some best
  | p :: ps, best, t =>
    match statMtimeMs fs p with
    | none => none
    | some m => if m > t then findLatestGo fs ps (some p) m else findLatestGo fs ps best t

/-- findLatestModifiedPath of utils.ts: the outer none is a thrown stat,
the inner none is the null latestPath returned when no mtime exceeded 0. -/
def findLatestModifiedPath (fs : FS) (paths : List String) : Option (Option String) :=
  findLatestGo fs paths none 0

/-- The prefix of a segment before its first (case-sensitive) uid
sentinel: part.split(sentinel)[0]. -/
def beforeUid : List Char → List Char
  | [] => []
  | c :: cs =>
    if isPrefixL uidTokStr.data (c :: cs) then []
    else c :: beforeUid cs

/-- extractUidFromPath of utils.ts lines 156-171: split both paths on the
Windows separator, find the template segment holding the uid sentinel, and
return the aligned resolved segment (less any fixed prefix). -/
def extractUidFromPath (templatePath resolvedPath : String) : Option String :=
  let templateParts := jsSplit templatePath (fun c => c = '\\')
  let resolvedParts := jsSplit resolvedPath (fun c => c = '\\')
  match templateParts.findIdx? (fun part => containsSub part uidTokStr) with
  | none => none
  | some uidIndex =>
    match resolvedParts.get? uidIndex with
    | none => none
    | some matchedPart =>
      if matchedPart = "" then none
      else
        let pre : String := ⟨beforeUid ((templateParts.getD uidIndex "").data)⟩
        if pre ≠ "" ∧ isPrefixL pre.data matchedPart.data then
          some ⟨matchedPart.data.drop pre.data.length⟩
        else some matchedPart

/-- The candidate loop of fillPathUid: substitute each user id in priority
order, slashify, and glob; the first candidate with a match wins. -/
def fillCandidates (fs : FS) (basePath : String) : List (Option String) → Option ResolvedRet
  | [] => none
  | uid :: rest =>
    let resolvedPath := slashify (replaceUid basePath (jsStr uid))
    if (globSync fs resolvedPath).length > 0 then some ⟨resolvedPath, uid⟩
    else fillCandidates fs basePath rest

/-- fillPathUid of utils.ts lines 107-139; none models a thrown
exception (a stat failure inside findLatestModifiedPath, or the
null latestPath flowing into extractUidFromPath). -/
def fillPathUid (fs : FS) (gd : GameData) (basePath : String) : Option ResolvedRet :=
  match fillCandidates fs basePath
      [gd.currentSteamUserId64, gd.currentSteamUserId3, gd.currentUbisoftUserId] with
  | some r => some r
  | none =>
    if (globSync fs (slashify (replaceUid basePath "*"))).length = 0 then some ⟨"", none⟩
    else
      match findLatestModifiedPath fs (globSync fs (slashify (replaceUid basePath "*"))) with
      | none => none
      | some none => none
      | some (some latestPath) =>
        some ⟨replaceUid basePath (jsStr (extractUidFromPath basePath latestPath)),
              extractUidFromPath basePath latestPath⟩

/-- resolveTemplatedBackupPath of utils.ts lines 74-105. -/
def resolveTemplatedBackupPath (env : MachineEnv) (gd : GameData) (fs : FS)
    (templatedPath : String) (gameInstallPath : Option String) : Option ResolvedRet :=
  if unresolvedRemains (substTemplate env gd gameInstallPath templatedPath) then
    some ⟨"", none⟩
  else if containsSub (substTemplate env gd gameInstallPath templatedPath) uidTokStr then
    fillPathUid fs gd (substTemplate env gd gameInstallPath templatedPath)
  else some ⟨substTemplate env gd gameInstallPath templatedPath, none⟩

/-- Separator normalization with a flag recording whether the previous
character was a separator: every run of / or \ becomes one \. This is both
the replace(/[\\/]+/g, path.sep) of splitTemplatePath and the separator
part of path.win32.normalize. -/
def normGo : Bool → List Char → List Char
  | _, [] => []
  | prev, c :: cs =>
    if isSep c then (if prev then normGo true cs else '\\' :: normGo true cs)
    else c :: normGo false cs

/-- String wrapper for separator normalization. -/
def winNorm (s : String) : String := ⟨normGo false s.data⟩

/-- The token-to-identifier callback of splitTemplatePath:
placeholderIdentifier[normalizedMatch] || normalizedMatch. -/
def identCb (tok : String) : String :=
  let n := normalizeMatch tok
  match lookupA placeholderIdentifier n with
  | some v => if v = "" then n else v
  | none => n

/-- splitTemplatePath of finalizeTemplate (utils.ts 174-181). -/
def splitTemplatePath (templatePath : String) : List String :=
  let normalizedTemplate : String := ⟨replTokAux identCb templatePath.data⟩
  jsSplit (winNorm normalizedTemplate) (fun c => c = '\\')

/-- Anchored match of the numbered-identifier regex /\x7b\x7bp\d+\x7d\x7d/. -/
def pnumAt : List Char → Bool
  | a :: b :: p :: rest =>
    a = lbr && b = lbr && p = 'p' &&
      (!(rest.takeWhile Char.isDigit).isEmpty &&
        (match rest.dropWhile Char.isDigit with
         | c1 :: c2 :: _ => c1 = rbr && c2 = rbr
         | _ => false))
  | _ => false

/-- Search for a numbered identifier anywhere in a segment. -/
def hasPNumTok : List Char → Bool
  | [] => false
  | c :: cs => pnumAt (c :: cs) || hasPNumTok cs

/-- Replacement of the first literal occurrence of a pattern, mirroring
JS String.prototype.replace with a plain string pattern. -/
def replFirstL (pat rep : List Char) : List Char → List Char
  | [] => []
  | c :: cs =>
    if isPrefixL pat (c :: cs) then rep ++ (c :: cs).drop pat.length
    else c :: replFirstL pat rep cs

/-- String wrapper for first-occurrence replacement. -/
def jsReplaceFirst (s pat rep : String) : String := ⟨replFirstL pat.data rep.data s.data⟩

/-- The numbered markers used by finalizeTemplate's switch. -/
def pTok11 : String := "\x7b\x7bp11\x7d\x7d"

/-- Marker for the uid placeholder. -/
def pTok12 : String := "\x7b\x7bp12\x7d\x7d"

/-- Marker for the steam placeholder. -/
def pTok13 : String := "\x7b\x7bp13\x7d\x7d"

/-- Marker for the uplay and ubisoftconnect placeholders. -/
def pTok14 : String := "\x7b\x7bp14\x7d\x7d"

/-- The main loop of finalizeTemplate (utils.ts 188-225) over the template
segments, carrying the resolved-segment cursor and the accumulated result
segments (reversed); none models a TypeError (an undefined pathMapping
being split, or an out-of-range resolved segment flowing into path.join). -/
def finalizeGo (env : MachineEnv) (gd : GameData) (uid : Option String)
    (gameInstallPath : Option String) (resolvedParts : List String) :
    List String → Nat → List String → Option (List String)
  | [], _, acc => some acc.reverse
  | currentPart :: rest, resolvedIndex, acc =>
    if hasPNumTok currentPart.data then
      if currentPart = pTok12 then
        finalizeGo env gd uid gameInstallPath resolvedParts rest (resolvedIndex + 1)
          (jsReplaceFirst currentPart pTok12 (jsStr uid) :: acc)
      else
        match (if currentPart = pTok11 then
            some (jsReplaceFirst currentPart pTok11 (jsStr gameInstallPath))
          else if currentPart = pTok13 then
            some (jsReplaceFirst currentPart pTok13 (jsStr gd.steamPath))
          else if currentPart = pTok14 then
            some (jsReplaceFirst currentPart pTok14 (jsStr gd.ubisoftPath))
          else lookupA (placeholderMapping env)
            ((findKeyByValue placeholderIdentifier currentPart).getD currentPart)) with
        | none => none
        | some pathMapping =>
          finalizeGo env gd uid gameInstallPath resolvedParts rest
            (resolvedIndex + (jsSplit pathMapping (fun c => c = '\\')).length)
            (((findKeyByValue placeholderIdentifier currentPart).getD currentPart) :: acc)
    else if currentPart.data.contains '*' then
      match resolvedParts.get? resolvedIndex with
      | none => none
      | some seg =>
        finalizeGo env gd uid gameInstallPath resolvedParts rest (resolvedIndex + 1) (seg :: acc)
    else
      finalizeGo env gd uid gameInstallPath resolvedParts rest (resolvedIndex + 1)
        (currentPart :: acc)

/-- path.win32.join: drop empty parts, join with \, normalize separators;
the all-empty join is the current directory. Dot-segment resolution is not
modelled, so this definition agrees with path.win32.join only on parts
without a . or .. segment; the amended round-trip class (okSeg) excludes
those segments, and every concrete input here is free of them. -/
def pathJoin (parts : List String) : String :=
  let kept := parts.filter (fun s => s ≠ "")
  if kept.isEmpty then "." else winNorm ⟨joinSepL (kept.map String.data)⟩

/-- finalizeTemplate of utils.ts lines 173-228. -/
def finalizeTemplate (env : MachineEnv) (gd : GameData) (template resolvedPath : String)
    (uid : Option String) (gameInstallPath : Option String) : Option String :=
  let templateParts := splitTemplatePath template
  let resolvedParts := jsSplit resolvedPath (fun c => c = '\\')
  (finalizeGo env gd uid gameInstallPath resolvedParts templateParts 0 []).map pathJoin

/-- The canonical placeholder tokens of the amended round-trip class: the
lowercase tokens of the global.ts tables whose text contains no path
separator and whose numbered identifier maps back to the same token; this
leaves out uid, ubisoftconnect (finalization rewrites it to uplay) and the
two userprofile subfolder tokens (their text contains a separator). -/
def canonicalTokens : List String :=
  ["\x7b\x7bp|username\x7d\x7d", "\x7b\x7bp|userprofile\x7d\x7d",
   "\x7b\x7bp|appdata\x7d\x7d", "\x7b\x7bp|localappdata\x7d\x7d",
   "\x7b\x7bp|programfiles\x7d\x7d", "\x7b\x7bp|programdata\x7d\x7d",
   "\x7b\x7bp|public\x7d\x7d", "\x7b\x7bp|windir\x7d\x7d",
   "\x7b\x7bp|hkcu\x7d\x7d", "\x7b\x7bp|hklm\x7d\x7d", "\x7b\x7bp|wow64\x7d\x7d",
   "\x7b\x7bp|osxhome\x7d\x7d", "\x7b\x7bp|linuxhome\x7d\x7d",
   "\x7b\x7bp|xdgdatahome\x7d\x7d", "\x7b\x7bp|xdgconfighome\x7d\x7d",
   "\x7b\x7bp|game\x7d\x7d", "\x7b\x7bp|steam\x7d\x7d", "\x7b\x7bp|uplay\x7d\x7d"]

/-- A clean literal segment: non-empty, free of separators, braces and
wildcards, and not one of the dot segments that path.win32.join resolves
away. -/
def cleanLitB (s : String) : Bool :=
  !s.data.isEmpty && s.data.all (fun c => !isSep c && c ≠ lbr && c ≠ rbr && c ≠ '*') &&
    s ≠ "." && s ≠ ".."

/-- A segment of the amended round-trip class: a clean literal or a
canonical placeholder token. -/
def okSeg (s : String) : Bool := cleanLitB s || canonicalTokens.contains s

/-- The image of one segment under a token replacement pass. -/
def segImage (f : String → String) (s : String) : String :=
  if canonicalTokens.contains s then f s else s

/-- Backslash join of template segments. -/
def joinBS (segs : List String) : String := ⟨joinSepL (segs.map String.data)⟩

/-- manageOldBackups of backup.ts lines 460-471: sort the instance names
ascending, and when over the limit delete the oldest surplus wholesale. -/
def manageOldBackups (maxBackups : Nat) (existingBackups : List String) : List String :=
  if (existingBackups.mergeSort (fun a b => a ≤ b)).length > maxBackups then
    existingBackups.filter (fun b =>
      !(((existingBackups.mergeSort (fun a b => a ≤ b)).take
          ((existingBackups.mergeSort (fun a b => a ≤ b)).length - maxBackups)).contains b))
  else existingBackups

/-- One backupGame run as it affects the game's backup directory: the
instance directory is created (mkdirSync recursive is a no-op when it
exists), then manageOldBackups prunes. -/
def backupStep (maxBackups : Nat) (dir : List String) (instName : String) : List String :=
  manageOldBackups maxBackups (if dir.contains instName then dir else dir ++ [instName])

/-- Observable filesystem events of one backupGame execution. -/
inductive BkEvent where
  | copyPath (idx : Nat)
  | writeManifest
  | pruneOld
deriving DecidableEq, Repr

/-- The event trace of backupGame (backup.ts 380-410): one copy event per
resolved path in order; a failed copy raises, the catch skips the rest; the
manifest write and retention pruning follow only after every copy. -/
def backupTraceGo : Nat → List Bool → List BkEvent
  | _, [] => [.writeManifest, .pruneOld]
  | i, ok :: rest => if ok then .copyPath i :: backupTraceGo (i + 1) rest else []

/-- The trace of a backupGame run whose per-path copies succeed as given. -/
def backupGameTrace (oks : List Bool) : List BkEvent := backupTraceGo 0 oks

/-- Truncation of a millisecond timestamp to whole minutes:
moment(t).seconds(0).milliseconds(0). -/
def truncMin (m : Nat) : Nat := m / 60000 * 60000

mutual
/-- The recursive walk of getLatestModificationTime (restore half of the
sources, lines 811-845) over a node: files report their mtime truncated to
minutes, directories the maximum over their contents, ignoring the
directory's own stat mtime. -/
def latestModTree : FTree → Nat
  | .file m => truncMin m
  | .dir _ cs => latestModChildren cs

/-- The walk over a children list, as the for-loop max accumulation. -/
def latestModChildren : List (String × FTree) → Nat
  | [] => 0
  | (_, t) :: rest => max (latestModTree t) (latestModChildren rest)
end

/-- getLatestModificationTime: the epoch for a missing path, otherwise the
recursive walk of the node. -/
def getLatestModificationTime (fs : FS) (p : String) : Nat :=
  match statEntry fs p with
  | none => 0
  | some t => latestModTree t

/-- Outcome of the shouldSkip conflict check: a decision (with the
remembered batch action), or a request for an interactive prompt. -/
inductive SkipOutcome where
  | res (skip : Bool) (actionForAll : Option String)
  | askUser
deriving DecidableEq, Repr

/-- The two strict-greater accumulations of shouldSkip over the
source/destination pairs. -/
def latestPairTimes (fs : FS) (pathsToCheck : List (String × String)) : Nat × Nat :=
  pathsToCheck.foldl
    (fun acc pr =>
      let srcT := getLatestModificationTime fs pr.1
      let destT := getLatestModificationTime fs pr.2
      (if srcT > acc.1 then srcT else acc.1, if destT > acc.2 then destT else acc.2))
    (0, 0)

/-- shouldSkip of the restore sources (lines 761-809): prompt only when
the destination data is newer than the backup and no batch decision is
remembered; a remembered decision is applied silently. -/
def shouldSkip (fs : FS) (pathsToCheck : List (String × String))
    (userActionForAll : Option String) : SkipOutcome :=
  let t := latestPairTimes fs pathsToCheck
  if t.1 < t.2 then
    match userActionForAll with
    | some a => .res (a == "skip") (some a)
    | none => .askUser
  else .res false none

/-! Unfolding equations for the well-founded recursive definitions, used to
evaluate them on concrete inputs and in inductive arguments. -/

theorem replUidAux_cons (rep : List Char) (c : Char) (cs : List Char) :
    replUidAux rep (c :: cs) =
      if uidAtHead (c :: cs) then rep ++ replUidAux rep (cs.drop 8)
      else c :: replUidAux rep cs := by
  rw [replUidAux]

theorem replUidAux_nil (rep : List Char) : replUidAux rep [] = [] := by
  rw [replUidAux]

theorem latestModTree_file (m : Nat) : latestModTree (.file m) = truncMin m := by
  rw [latestModTree]

theorem latestModTree_dir (m : Nat) (cs : List (String × FTree)) :
    latestModTree (.dir m cs) = latestModChildren cs := by
  rw [latestModTree]

theorem latestModChildren_nil : latestModChildren [] = 0 := by
  rw [latestModChildren]

theorem latestModChildren_cons (e : String × FTree) (rest : List (String × FTree)) :
    latestModChildren (e :: rest) = max (latestModTree e.2) (latestModChildren rest) := by
  obtain ⟨n, t⟩ := e
  rw [latestModChildren]

theorem allPathsTree_eq (pre : String) (e : String × FTree) :
    allPathsTree pre e = (pre ++ e.1) :: allPathsUnder (pre ++ e.1 ++ "/") e.2 := by
  obtain ⟨n, t⟩ := e
  rw [allPathsTree]

theorem allPathsUnder_file (pre : String) (m : Nat) : allPathsUnder pre (.file m) = [] := by
  rw [allPathsUnder]

theorem allPathsUnder_dir_nil (pre : String) (m : Nat) : allPathsUnder pre (.dir m []) = [] := by
  rw [allPathsUnder]

theorem allPathsUnder_dir_cons (pre : String) (m : Nat) (c : String × FTree)
    (cs : List (String × FTree)) :
    allPathsUnder pre (.dir m (c :: cs)) =
      allPathsTree pre c ++ allPathsUnder pre (.dir m cs) := by
  rw [allPathsUnder]

/-! Facts about Char.toLower on the ASCII range, needed to transport token
matching through the source's toLowerCase calls. -/

theorem toNat_ofNat_small {n : Nat} (h : n < 1000) : (Char.ofNat n).toNat = n := by
  rw [Char.ofNat, dif_pos]
  · rfl
  · left; omega

theorem char_eq_of_toNat {c : Char} {n : Nat} (h : c.toNat = n) : c = Char.ofNat n := by
  rw [← h, Char.ofNat_toNat]

theorem toLower_eq_fixed {c t : Char}
    (h1 : t.toNat < 65 ∨ (90 < t.toNat ∧ t.toNat < 97) ∨ 122 < t.toNat) :
    Char.toLower c = t ↔ c = t := by
  constructor
  · intro h
    simp only [Char.toLower] at h
    split at h
    · exfalso
      rename_i hr
      have h2 : (Char.ofNat (c.toNat + 32)).toNat = c.toNat + 32 := toNat_ofNat_small (by omega)
      rw [h] at h2
      omega
    · exact h
  · intro h
    subst h
    simp only [Char.toLower]
    split
    · rename_i hr; omega
    · rfl

theorem toLower_eq_p {c : Char} : Char.toLower c = 'p' ↔ (c = 'p' ∨ c = 'P') := by
  constructor
  · intro h
    simp only [Char.toLower] at h
    split at h
    · rename_i hr
      have h2 : (Char.ofNat (c.toNat + 32)).toNat = c.toNat + 32 := toNat_ofNat_small (by omega)
      rw [h] at h2
      have hp : ('p' : Char).toNat = 112 := by decide
      right
      have hn : c.toNat = 80 := by omega
      rw [char_eq_of_toNat hn]
    · exact Or.inl h
  · rintro (h | h) <;> subst h <;> decide

/-! Concrete environments used by the evaluation witnesses. -/

/-- A small concrete machine environment. -/
def sampleEnv : MachineEnv :=
  ⟨"u", "P", "D", "L", "A", "C", "F", "G", "B", "W", "H", "I", "X", "Y"⟩

/-- A concrete game-data record with every root and id detected. -/
def sampleGd : GameData := ⟨some "S", some "U", some "7", some "8", some "9"⟩

/-- A game-data record with nothing detected (all null). -/
def emptyGd : GameData := ⟨none, none, none, none, none⟩

/-- Claim C4: whenever, after placeholder substitution, some placeholder
token other than the uid sentinel remains in the path, the resolver returns
the empty-path failure marker (and does not throw). -/
theorem claim_C4 (env : MachineEnv) (gd : GameData) (fs : FS) (templatedPath : String)
    (g : Option String)
    (h : unresolvedRemains (substTemplate env gd g templatedPath) = true) :
    resolveTemplatedBackupPath env gd fs templatedPath g = some ⟨"", none⟩ := by
  unfold resolveTemplatedBackupPath
  simp [h]

/-- Witness for C4 at the unknown placeholder token bogus. -/
theorem claim_C4_witness :
    resolveTemplatedBackupPath sampleEnv sampleGd [] "\x7b\x7bp|bogus\x7d\x7d" none =
      some ⟨"", none⟩ :=
  claim_C4 sampleEnv sampleGd [] "\x7b\x7bp|bogus\x7d\x7d" none (by
    simp +decide [unresolvedRemains, substTemplate, replTokAux_cons, replTokAux_nil, tryTok,
      resolveCb, normalizeMatch, lookupA, placeholderMapping, sampleEnv, sampleGd, jsStr,
      replUidAux_cons, replUidAux_nil, uidAtHead, uidTokStr, hasTokL, lbr, rbr, bs2slash])

/-- Claim C5 counterexample: with the game install path null, resolving a
template containing the game placeholder does not produce the empty-path
marker; the placeholder is substituted by the JS string coercion null. -/
theorem claim_C5_counterexample :
    resolveTemplatedBackupPath sampleEnv sampleGd [] "\x7b\x7bp|game\x7d\x7d/s" none =
      some ⟨"null/s", none⟩ ∧ ("null/s" : String) ≠ "" := by
  constructor
  · simp +decide [resolveTemplatedBackupPath, unresolvedRemains, substTemplate, replTokAux_cons,
      replTokAux_nil, tryTok, resolveCb, normalizeMatch, lookupA, placeholderMapping, sampleEnv,
      sampleGd, jsStr, replUidAux_cons, replUidAux_nil, uidAtHead, uidTokStr, hasTokL,
      containsSub, hasSubL, isPrefixL, lbr, rbr, bs2slash]
  · decide

/-- Claim C5 amended: a null game install path is not a failure; the
resolver behaves exactly as if the install path were the literal string
null, which the game placeholder receives by JS string coercion. -/
theorem claim_C5_amended (env : MachineEnv) (gd : GameData) (fs : FS) (templatedPath : String) :
    resolveTemplatedBackupPath env gd fs templatedPath none =
      resolveTemplatedBackupPath env gd fs templatedPath (some "null") := by
  have hcb : resolveCb env gd none = resolveCb env gd (some "null") := by
    funext tok
    simp [resolveCb, jsStr]
  unfold resolveTemplatedBackupPath substTemplate
  rw [hcb]

/-- Claim C7: the conflict check proceeds silently with skip false when the
destination data is not newer than the backup data; when it is newer, a
remembered batch action is applied silently, and otherwise an interactive
prompt is requested. -/
theorem claim_C7 (fs : FS) (pairs : List (String × String)) (act : Option String) :
    (¬ (latestPairTimes fs pairs).1 < (latestPairTimes fs pairs).2 →
      shouldSkip fs pairs act = .res false none) ∧
    ((latestPairTimes fs pairs).1 < (latestPairTimes fs pairs).2 → act = none →
      shouldSkip fs pairs act = .askUser) ∧
    ((latestPairTimes fs pairs).1 < (latestPairTimes fs pairs).2 → ∀ a, act = some a →
      shouldSkip fs pairs act = .res (a == "skip") (some a)) := by
  refine ⟨fun h => ?_, fun h ha => ?_, fun h a ha => ?_⟩ <;>
    · unfold shouldSkip
      subst_eqs <;> simp [h]

/-- Witness for C7 on the empty pair list (no conflict). -/
theorem claim_C7_witness : shouldSkip [] [] none = SkipOutcome.res false none :=
  (claim_C7 [] [] none).1 (by decide)

/-- The destination accumulator of shouldSkip stays at the epoch when every
destination path is missing. -/
theorem latestPairTimes_snd_zero (fs : FS) (pairs : List (String × String))
    (h : ∀ pr ∈ pairs, statEntry fs pr.2 = none) :
    (latestPairTimes fs pairs).2 = 0 := by
  suffices hgen : ∀ acc : Nat × Nat,
      (pairs.foldl
        (fun acc pr =>
          let srcT := getLatestModificationTime fs pr.1
          let destT := getLatestModificationTime fs pr.2
          (if srcT > acc.1 then srcT else acc.1, if destT > acc.2 then destT else acc.2))
        acc).2 = acc.2 by
    exact hgen (0, 0)
  induction pairs with
  | nil => intro acc; rfl
  | cons pr rest ih =>
    intro acc
    have hpr : statEntry fs pr.2 = none := h pr (by simp)
    have hdest : getLatestModificationTime fs pr.2 = 0 := by
      unfold getLatestModificationTime
      rw [hpr]
    rw [List.foldl_cons]
    rw [ih (fun q hq => h q (by simp [hq]))]
    simp [hdest]

/-- Claim C10: a missing path reports the epoch modification time, and a
restore whose destinations are all missing proceeds without prompting and
without a remembered action. -/
theorem claim_C10 :
    (∀ (fs : FS) (p : String), statEntry fs p = none →
      getLatestModificationTime fs p = 0) ∧
    (∀ (fs : FS) (pairs : List (String × String)) (act : Option String),
      (∀ pr ∈ pairs, statEntry fs pr.2 = none) →
      shouldSkip fs pairs act = .res false none) := by
  constructor
  · intro fs p h
    unfold getLatestModificationTime
    rw [h]
  · intro fs pairs act h
    have hd := latestPairTimes_snd_zero fs pairs h
    simp [shouldSkip, hd]

/-- Witness for C10 on an empty filesystem. -/
theorem claim_C10_witness :
    getLatestModificationTime [] "x" = 0 ∧
      shouldSkip [] [("a", "b")] none = SkipOutcome.res false none :=
  ⟨claim_C10.1 [] "x" rfl,
   claim_C10.2 [] [("a", "b")] none
     (by intro pr hpr; rcases List.mem_singleton.mp hpr with rfl; rfl)⟩

/-- When every copy succeeds, the backup trace is the copies in path order
followed by the manifest write and the retention pruning. -/
theorem backupTraceGo_all (oks : List Bool) (h : oks.all id = true) :
    ∀ i, backupTraceGo i oks =
      ((List.range' i oks.length).map BkEvent.copyPath) ++
        [BkEvent.writeManifest, BkEvent.pruneOld] := by
  induction oks with
  | nil =>
    intro i
    simp [backupTraceGo]
  | cons ok rest ih =>
    intro i
    simp only [List.all_cons, Bool.and_eq_true, id] at h
    simp [backupTraceGo, h.1, List.range'_succ, ih h.2 (i + 1)]

/-- The manifest write appears in the trace only when every copy succeeded. -/
theorem manifest_mem_all (oks : List Bool) :
    ∀ i, BkEvent.writeManifest ∈ backupTraceGo i oks → oks.all id = true := by
  induction oks with
  | nil => intro i _; rfl
  | cons ok rest ih =>
    intro i h
    by_cases hok : ok = true
    · rw [backupTraceGo, if_pos hok] at h
      rcases List.mem_cons.mp h with hc | hm
      · exact absurd hc (by simp)
      · simp [hok, ih (i + 1) hm]
    · rw [backupTraceGo, if_neg hok] at h
      exact absurd h (List.not_mem_nil _)

/-- Claim C8: in every backupGame execution, the backup manifest is written
only after every resolved path has been copied: whenever the manifest event
sits at position n of the trace, every path's copy event sits strictly
before n. -/
theorem claim_C8 (oks : List Bool) (n : Nat)
    (h : (backupGameTrace oks)[n]? = some BkEvent.writeManifest) :
    ∀ i < oks.length, ∃ m, m < n ∧ (backupGameTrace oks)[m]? = some (BkEvent.copyPath i) := by
  have hall : oks.all id = true :=
    manifest_mem_all oks 0 (List.getElem?_mem h)
  have hstruct := backupTraceGo_all oks hall 0
  rw [backupGameTrace, hstruct] at h
  have hn : n = oks.length := by
    rcases Nat.lt_or_ge n ((List.range' 0 oks.length).map BkEvent.copyPath).length with hlt | hge
    · rw [List.getElem?_append_left hlt] at h
      simp only [List.length_map, List.length_range'] at hlt
      simp [List.getElem?_range', hlt] at h
    · rw [List.getElem?_append_right hge] at h
      simp only [List.length_map, List.length_range'] at hge
      rcases Nat.lt_or_ge n (oks.length + 1) with h1 | h1
      · omega
      · rcases Nat.lt_or_ge n (oks.length + 2) with h2 | h2
        · exfalso
          have : n - oks.length = 1 := by omega
          simp only [List.length_map, List.length_range', this] at h
          simp at h
        · exfalso
          have hnone : [BkEvent.writeManifest, BkEvent.pruneOld][n - oks.length]? = none := by
            apply List.getElem?_eq_none
            simp
            omega
          simp only [List.length_map, List.length_range'] at h
          rw [hnone] at h
          exact Option.noConfusion h
  subst hn
  intro i hi
  refine ⟨i, hi, ?_⟩
  rw [backupGameTrace, hstruct]
  rw [List.getElem?_append_left (by simpa using hi)]
  simp [List.getElem?_range', hi]

/-- Witness for C8 on a two-path backup whose copies both succeed. -/
theorem claim_C8_witness :
    (backupGameTrace [true, true])[2]? = some BkEvent.writeManifest ∧
      ∀ i < 2, ∃ m, m < 2 ∧
        (backupGameTrace [true, true])[m]? = some (BkEvent.copyPath i) := by
  have h2 : (backupGameTrace [true, true])[2]? = some BkEvent.writeManifest := by
    simp [backupGameTrace, backupTraceGo]
  refine ⟨h2, ?_⟩
  have := claim_C8 [true, true] 2 h2
  simpa using this

/-- Claim C2: fillPathUid tries the candidate user ids in the fixed order
Steam64, Steam3, Ubisoft; the first candidate whose substituted, slashified
path has a glob match is returned, and a later candidate is returned as
soon as every earlier one has no match, without falling through to the
wildcard search. -/
theorem claim_C2 (fs : FS) (gd : GameData) (basePath A B : String)
    (h64 : gd.currentSteamUserId64 = some A) (h3 : gd.currentSteamUserId3 = some B) :
    ((globSync fs (slashify (replaceUid basePath A))).length > 0 →
      fillPathUid fs gd basePath = some ⟨slashify (replaceUid basePath A), some A⟩) ∧
    ((globSync fs (slashify (replaceUid basePath A))).length = 0 →
      (globSync fs (slashify (replaceUid basePath B))).length > 0 →
      fillPathUid fs gd basePath = some ⟨slashify (replaceUid basePath B), some B⟩) := by
  have hstep : ∀ (u : Option String) (rest : List (Option String)),
      fillCandidates fs basePath (u :: rest) =
        if (globSync fs (slashify (replaceUid basePath (jsStr u)))).length > 0 then
          some ⟨slashify (replaceUid basePath (jsStr u)), u⟩
        else fillCandidates fs basePath rest := fun u rest => rfl
  constructor
  · intro hA
    unfold fillPathUid
    rw [h64, hstep]
    simp only [jsStr]
    rw [if_pos hA]
  · intro hA hB
    unfold fillPathUid
    rw [h64, h3, hstep]
    simp only [jsStr]
    rw [if_neg (by omega), hstep]
    simp only [jsStr]
    rw [if_pos hB]

/-- Witness for C2: only the second candidate's directory exists. -/
theorem claim_C2_witness :
    fillPathUid [("b", .file 0)] ⟨none, none, some "a", some "b", none⟩ uidTokStr =
      some ⟨"b", some "b"⟩ := by
  have h := (claim_C2 [("b", .file 0)] ⟨none, none, some "a", some "b", none⟩
    uidTokStr "a" "b" rfl rfl).2
  have ha : slashify (replaceUid uidTokStr "a") = "a" := by
    simp [slashify, replaceUid, replUidAux_cons, replUidAux_nil, uidAtHead, uidTokStr, bs2slash]
  have hb : slashify (replaceUid uidTokStr "b") = "b" := by
    simp [slashify, replaceUid, replUidAux_cons, replUidAux_nil, uidAtHead, uidTokStr, bs2slash]
  rw [ha, hb] at h
  have hall : allPaths [("b", FTree.file 0)] = ["b"] := by
    simp [allPaths, allPathsTree_eq, allPathsUnder_file]
  apply h
  · rw [globSync, hall]; decide
  · rw [globSync, hall]; decide

/-- The accumulator loop of findLatestModifiedPath returns a path of the
input list whose own stat mtime strictly exceeds the running maximum and is
maximal among all the input paths' own stat mtimes. -/
theorem findLatestGo_spec (fs : FS) :
    ∀ (ps : List String) (best : Option String) (t : Nat) (lp : String),
      (∀ b, best = some b → statMtimeMs fs b = some t) →
      findLatestGo fs ps best t = some (some lp) →
      ∃ m, statMtimeMs fs lp = some m ∧ t ≤ m ∧ (lp ∈ ps ∨ best = some lp) ∧
        ∀ q ∈ ps, ∀ mq, statMtimeMs fs q = some mq → mq ≤ m := by
  intro ps
  induction ps with
  | nil =>
    intro best t lp hb h
    simp only [findLatestGo] at h
    injection h with h1
    exact ⟨t, hb lp h1, Nat.le_refl t, Or.inr h1, by simp⟩
  | cons p ps ih =>
    intro best t lp hb h
    simp only [findLatestGo] at h
    cases hst : statMtimeMs fs p with
    | none => rw [hst] at h; exact absurd h (by simp)
    | some mp =>
      simp only [hst] at h
      by_cases hgt : mp > t
      · rw [if_pos hgt] at h
        obtain ⟨m, hm, hmt, hloc, hmax⟩ :=
          ih (some p) mp lp
            (by intro b hbeq; injection hbeq with hbe; rw [← hbe]; exact hst) h
        refine ⟨m, hm, by omega, ?_, ?_⟩
        · rcases hloc with hin | hbp
          · exact Or.inl (List.mem_cons_of_mem p hin)
          · injection hbp with hbe
            exact Or.inl (by rw [← hbe]; exact List.mem_cons_self p ps)
        · intro q hq mq hmq
          rcases List.mem_cons.mp hq with rfl | hqs
          · rw [hst] at hmq
            injection hmq with he
            omega
          · exact hmax q hqs mq hmq
      · rw [if_neg hgt] at h
        obtain ⟨m, hm, hmt, hloc, hmax⟩ := ih best t lp hb h
        refine ⟨m, hm, hmt, ?_, ?_⟩
        · rcases hloc with hin | hbp
          · exact Or.inl (List.mem_cons_of_mem p hin)
          · exact Or.inr hbp
        · intro q hq mq hmq
          rcases List.mem_cons.mp hq with rfl | hqs
          · rw [hst] at hmq
            injection hmq with he
            omega
          · exact hmax q hqs mq hmq

/-- A filesystem refuting C3: directory A has the newer content (a file at
100 minutes) but the older own mtime (10 minutes); directory B has older
content (60 minutes) but the newer own mtime (50 minutes). -/
def cfs : FS :=
  [("d", .dir 0
    [("A", .dir 600000 [("f", .file 6000000)]),
     ("B", .dir 3000000 [("g", .file 3600000)])])]

/-- The uid-bearing base path used against cfs. -/
def cbp : String := "d/\x7b\x7bp|uid\x7d\x7d"

theorem cfs_allPaths : allPaths cfs = ["d", "d/A", "d/A/f", "d/B", "d/B/g"] := by
  simp +decide [allPaths, cfs, allPathsTree_eq, allPathsUnder_dir_cons, allPathsUnder_dir_nil,
    allPathsUnder_file]

theorem cbp_subst_null : slashify (replaceUid cbp "null") = "d/null" := by
  simp +decide [cbp, slashify, replaceUid, replUidAux_cons, replUidAux_nil, uidAtHead,
    uidTokStr, bs2slash]

theorem cbp_subst_star : slashify (replaceUid cbp "*") = "d/*" := by
  simp +decide [cbp, slashify, replaceUid, replUidAux_cons, replUidAux_nil, uidAtHead,
    uidTokStr, bs2slash]

theorem cbp_subst_B : replaceUid cbp "B" = "d/B" := by
  simp +decide [cbp, replaceUid, replUidAux_cons, replUidAux_nil, uidAtHead, uidTokStr]

theorem cfs_glob_null : globSync cfs "d/null" = [] := by
  rw [globSync, cfs_allPaths]; decide

theorem cfs_glob_star : globSync cfs "d/*" = ["d/A", "d/B"] := by
  rw [globSync, cfs_allPaths]; decide

theorem cfs_cand_none :
    fillCandidates cfs cbp [none, none, none] = none := by
  simp [fillCandidates, jsStr, cbp_subst_null, cfs_glob_null]

set_option maxRecDepth 4000 in
theorem cfs_findLatest : findLatestModifiedPath cfs ["d/A", "d/B"] = some (some "d/B") := by
  decide

set_option maxRecDepth 4000 in
theorem cbp_extract : extractUidFromPath cbp "d/B" = some "B" := by decide

theorem cfs_latest_A : getLatestModificationTime cfs "d/A" = 6000000 := by
  have h : statEntry cfs "d/A" = some (FTree.dir 600000 [("f", FTree.file 6000000)]) := rfl
  simp only [getLatestModificationTime, h, latestModTree_dir, latestModChildren_cons,
    latestModChildren_nil, latestModTree_file, truncMin]
  norm_num

theorem cfs_latest_B : getLatestModificationTime cfs "d/B" = 3600000 := by
  have h : statEntry cfs "d/B" = some (FTree.dir 3000000 [("g", FTree.file 3600000)]) := rfl
  simp only [getLatestModificationTime, h, latestModTree_dir, latestModChildren_cons,
    latestModChildren_nil, latestModTree_file, truncMin]
  norm_num

/-- The wildcard branch of fillPathUid, taken when no candidate matched. -/
theorem fillPathUid_none_branch (fs : FS) (gd : GameData) (basePath : String)
    (hcand : fillCandidates fs basePath
      [gd.currentSteamUserId64, gd.currentSteamUserId3, gd.currentUbisoftUserId] = none) :
    fillPathUid fs gd basePath =
      if (globSync fs (slashify (replaceUid basePath "*"))).length = 0 then
        some ⟨"", none⟩
      else
        match findLatestModifiedPath fs (globSync fs (slashify (replaceUid basePath "*"))) with
        | none => none
        | some none => none
        | some (some latestPath) =>
          some ⟨replaceUid basePath (jsStr (extractUidFromPath basePath latestPath)),
                extractUidFromPath basePath latestPath⟩ := by
  rw [fillPathUid, hcand]

/-- Reduction of the latest-path match at a successfully found path. -/
theorem matchLatest_some (bp lp : String) :
    (match (some (some lp) : Option (Option String)) with
     | none => (none : Option ResolvedRet)
     | some none => none
     | some (some latestPath) =>
       some ⟨replaceUid bp (jsStr (extractUidFromPath bp latestPath)),
             extractUidFromPath bp latestPath⟩) =
      some ⟨replaceUid bp (jsStr (extractUidFromPath bp lp)), extractUidFromPath bp lp⟩ := rfl

theorem cfs_fill : fillPathUid cfs emptyGd cbp = some ⟨"d/B", some "B"⟩ := by
  rw [fillPathUid_none_branch cfs emptyGd cbp cfs_cand_none]
  rw [cbp_subst_star, cfs_glob_star, if_neg (by norm_num), cfs_findLatest, matchLatest_some]
  rw [cbp_extract]
  simp only [jsStr, cbp_subst_B]

/-- Claim C3 counterexample: with no candidate uid matching and two
wildcard matches, resolution selects d/B, whose own stat mtime is newest,
even though d/A has the strictly larger recursive-maximum modification
time computed by the recursive walk getLatestModificationTime. -/
theorem claim_C3_counterexample :
    fillPathUid cfs emptyGd cbp = some ⟨"d/B", some "B"⟩ ∧
      getLatestModificationTime cfs "d/A" > getLatestModificationTime cfs "d/B" := by
  refine ⟨cfs_fill, ?_⟩
  rw [cfs_latest_A, cfs_latest_B]
  norm_num

/-- Claim C3 amended: when no candidate uid matches, the wildcard search
selects the filesystem match whose own stat mtime (the entry's own
metadata, not a recursive maximum) is strictly greatest, and resolution
substitutes the uid extracted from that match. -/
theorem claim_C3_amended (fs : FS) (gd : GameData) (basePath : String) (lp : String)
    (hcand : fillCandidates fs basePath
      [gd.currentSteamUserId64, gd.currentSteamUserId3, gd.currentUbisoftUserId] = none)
    (hfind : findLatestModifiedPath fs
      (globSync fs (slashify (replaceUid basePath "*"))) = some (some lp)) :
    fillPathUid fs gd basePath =
      some ⟨replaceUid basePath (jsStr (extractUidFromPath basePath lp)),
            extractUidFromPath basePath lp⟩ ∧
    lp ∈ globSync fs (slashify (replaceUid basePath "*")) ∧
    ∃ m, statMtimeMs fs lp = some m ∧
      ∀ q ∈ globSync fs (slashify (replaceUid basePath "*")), ∀ mq,
        statMtimeMs fs q = some mq → mq ≤ m := by
  have hne : (globSync fs (slashify (replaceUid basePath "*"))).length ≠ 0 := by
    intro h0
    rw [List.length_eq_zero.mp h0] at hfind
    simp only [findLatestModifiedPath, findLatestGo] at hfind
    injection hfind with h1
    exact Option.noConfusion h1
  obtain ⟨m, hm, _, hloc, hmax⟩ :=
    findLatestGo_spec fs _ none 0 lp (by intro b hb; cases hb) hfind
  have hlp : lp ∈ globSync fs (slashify (replaceUid basePath "*")) := by
    rcases hloc with hin | hbp
    · exact hin
    · exact absurd hbp (by simp)
  refine ⟨?_, hlp, m, hm, hmax⟩
  simp only [fillPathUid, hcand, if_neg hne, hfind]

/-- Witness for the amended C3 at the concrete two-match filesystem. -/
theorem claim_C3_witness :
    "d/B" ∈ globSync cfs (slashify (replaceUid cbp "*")) :=
  (claim_C3_amended cfs emptyGd cbp "d/B"
    (by simpa [emptyGd] using cfs_cand_none)
    (by rw [cbp_subst_star, cfs_glob_star]; exact cfs_findLatest)).2.1

/-- Filtering out the members of an initial segment of a duplicate-free
list leaves exactly the rest of the list. -/
theorem filter_take_drop (t d : List String) (hnd : (t ++ d).Nodup) :
    (t ++ d).filter (fun b => !(t.contains b)) = d := by
  rw [List.filter_append]
  have h1 : t.filter (fun b => !(t.contains b)) = [] := by
    rw [List.filter_eq_nil_iff]
    intro a ha
    simp [ha]
  have h2 : d.filter (fun b => !(t.contains b)) = d := by
    rw [List.filter_eq_self]
    intro a ha
    have hdisj := (List.nodup_append.mp hnd).2.2
    have : a ∉ t := fun hat => hdisj hat ha
    simp [this]
  rw [h1, h2, List.nil_append]

/-- On a strictly ascending directory listing, manageOldBackups keeps
exactly the lexicographically largest maxBackups names. -/
theorem manageOldBackups_sorted (K : Nat) (d : List String)
    (hp : List.Pairwise (· < ·) d) :
    manageOldBackups K d = d.drop (d.length - K) := by
  unfold manageOldBackups
  have hle : List.Pairwise (fun a b : String => (a ≤ b : Bool) = true) d := by
    refine hp.imp ?_
    intro a b hab
    simp [le_of_lt hab]
  have hms : d.mergeSort (fun a b => a ≤ b) = d := List.mergeSort_of_sorted hle
  rw [hms]
  split
  · have hnd : d.Nodup := hp.imp ne_of_lt
    have hnd2 : (d.take (d.length - K) ++ d.drop (d.length - K)).Nodup := by
      rw [List.take_append_drop]
      exact hnd
    have hft := filter_take_drop (d.take (d.length - K)) (d.drop (d.length - K)) hnd2
    rw [List.take_append_drop] at hft
    exact hft
  · rename_i hlen
    have : d.length - K = 0 := by omega
    rw [this, List.drop_zero]

/-- One backupGame step on a strictly ascending history: the new instance
is appended and the oldest surplus pruned. -/
theorem backupStep_sorted (K : Nat) (p : List String) (n : String)
    (hc : List.Chain' (· < ·) (p ++ [n])) :
    backupStep K (p.drop (p.length - K)) n = (p ++ [n]).drop (p.length + 1 - K) := by
  have hpw : List.Pairwise (· < ·) (p ++ [n]) := List.chain'_iff_pairwise.mp hc
  have hlt : ∀ x ∈ p, x < n := by
    intro x hx
    have := (List.pairwise_append.mp hpw).2.2
    exact this x hx n (List.mem_singleton_self n)
  have hppw : List.Pairwise (· < ·) p := (List.pairwise_append.mp hpw).1
  have hspw : List.Pairwise (· < ·) (p.drop (p.length - K)) :=
    hppw.sublist (List.drop_sublist _ _)
  have hnmem : n ∉ p.drop (p.length - K) := by
    intro hmem
    have hxp : n ∈ p := List.mem_of_mem_drop hmem
    exact absurd rfl (ne_of_lt (hlt n hxp))
  have hcont : (p.drop (p.length - K)).contains n = false := by
    simpa using hnmem
  have hs2 : List.Pairwise (· < ·) (p.drop (p.length - K) ++ [n]) := by
    rw [List.pairwise_append]
    refine ⟨hspw, List.pairwise_singleton _ _, ?_⟩
    intro x hx y hy
    rw [List.mem_singleton.mp hy]
    exact hlt x (List.mem_of_mem_drop hx)
  rw [backupStep, hcont]
  simp only [Bool.false_eq_true, if_false]
  rw [manageOldBackups_sorted K _ hs2]
  have hsplit : p.drop (p.length - K) ++ [n] = (p ++ [n]).drop (p.length - K) := by
    rw [List.drop_append_of_le_length (by omega)]
  rw [hsplit]
  rw [List.drop_drop]
  congr 1
  have hlen : (p.drop (p.length - K)).length = p.length - (p.length - K) :=
    List.length_drop _ _
  simp only [List.length_append, List.length_drop, List.length_singleton] at *
  omega

/-- The retention fold invariant: processing the remaining instance names
from a state holding the most recent K of the processed prefix yields the
most recent K of the whole history. -/
theorem backupFold_inv (K : Nat) :
    ∀ (rest p : List String), List.Chain' (· < ·) (p ++ rest) →
      List.foldl (backupStep K) (p.drop (p.length - K)) rest =
        (p ++ rest).drop ((p ++ rest).length - K) := by
  intro rest
  induction rest with
  | nil =>
    intro p _
    simp
  | cons n rest ih =>
    intro p hc
    rw [List.foldl_cons]
    have hcn : List.Chain' (· < ·) (p ++ [n]) := by
      refine List.Chain'.sublist hc ?_
      rw [show p ++ n :: rest = (p ++ [n]) ++ rest by simp]
      exact List.sublist_append_left _ _
    rw [backupStep_sorted K p n hcn]
    have hassoc : (p ++ [n]) ++ rest = p ++ n :: rest := by simp
    have := ih (p ++ [n]) (by rw [hassoc]; exact hc)
    rw [List.length_append, List.length_singleton] at this
    rw [this, hassoc]

/-- Claim C6: after N successful backups of a game under retention limit K
with K smaller than N and strictly increasing timestamp names, exactly K
instance directories remain, and they are the lexicographically largest
(most recent) K names. -/
theorem claim_C6 (K : Nat) (names : List String)
    (hchain : List.Chain' (· < ·) names) (hK : K < names.length) :
    (names.foldl (backupStep K) []).length = K ∧
      names.foldl (backupStep K) [] = names.drop (names.length - K) := by
  have h := backupFold_inv K names [] (by simpa using hchain)
  simp only [List.nil_append, List.length_nil, Nat.zero_sub, List.drop_zero,
    List.drop_nil] at h
  refine ⟨?_, h⟩
  rw [h, List.length_drop]
  omega

/-- Witness for C6: two backups with limit one keep only the newest. -/
theorem claim_C6_witness : ["a", "b"].foldl (backupStep 1) [] = ["b"] := by
  have hab : ("a" : String) < "b" := by
    rw [String.lt_iff_toList_lt]
    decide
  have h := (claim_C6 1 ["a", "b"]
    (List.chain'_cons.mpr ⟨hab, List.chain'_singleton _⟩) (by decide)).2
  simpa using h

theorem toLower_eq_lbr {c : Char} : Char.toLower c = lbr ↔ c = lbr :=
  toLower_eq_fixed (by decide)

theorem toLower_eq_rbr {c : Char} : Char.toLower c = rbr ↔ c = rbr :=
  toLower_eq_fixed (by decide)

theorem toLower_eq_bar {c : Char} : Char.toLower c = '|' ↔ c = '|' :=
  toLower_eq_fixed (by decide)

theorem toLower_ne_of_ne {c t : Char} (ht : Char.toLower t = t) (h : Char.toLower c ≠ t) :
    c ≠ t := by
  intro he
  rw [he] at h
  exact h ht

/-- A list with no placeholder token is left unchanged by the token
replacement pass. -/
theorem replTokAux_no_match (f : String → String) (l : List Char)
    (h : hasTokL l = false) : replTokAux f l = l := by
  induction l with
  | nil => exact replTokAux_nil f
  | cons c cs ih =>
    rw [hasTokL] at h
    rw [Bool.or_eq_false_iff] at h
    rw [replTokAux_cons]
    cases htt : tryTok (c :: cs) with
    | some pr => rw [htt] at h; simp at h
    | none =>
      rw [ih h.2]

/-- A token found after ASCII lowercasing was a token before lowercasing. -/
theorem tryTok_isSome_of_map (l : List Char)
    (h : (tryTok (l.map Char.toLower)).isSome = true) : (tryTok l).isSome = true := by
  have hpred : (notRbr ∘ Char.toLower) = notRbr := by
    funext c
    by_cases hc : c = rbr
    · subst hc
      simp only [Function.comp_apply]
      decide
    · simp only [Function.comp_apply]
      have hlc : Char.toLower c ≠ rbr := fun he => hc (toLower_eq_rbr.mp he)
      simp [notRbr, hlc, hc]
  match l with
  | [] => exact absurd h (by simp [tryTok])
  | [a] => exact absurd h (by simp [tryTok])
  | [a, b] => exact absurd h (by simp [tryTok])
  | [a, b, c] => exact absurd h (by simp [tryTok])
  | a :: b :: p :: bar :: rest =>
    simp only [List.map_cons] at h
    rw [tryTok] at h
    split at h
    · rename_i hcl
      obtain ⟨ha, hb, hp, hbar⟩ := hcl
      have ha' : a = lbr := toLower_eq_lbr.mp ha
      have hb' : b = lbr := toLower_eq_lbr.mp hb
      have hbar' : bar = '|' := toLower_eq_bar.mp hbar
      have hp' : p = 'p' ∨ p = 'P' := by
        rcases hp with hp | hp
        · exact toLower_eq_p.mp hp
        · exfalso
          simp only [Char.toLower] at hp
          split at hp
          · rename_i hr
            have h2 : (Char.ofNat (p.toNat + 32)).toNat = p.toNat + 32 :=
              toNat_ofNat_small (by omega)
            rw [hp] at h2
            have : ('P' : Char).toNat = 80 := by decide
            omega
          · rename_i hr
            rw [hp] at hr
            exact hr (by decide)
      rw [List.takeWhile_map, List.dropWhile_map, hpred] at h
      rw [tryTok, if_pos ⟨ha', hb', hp', hbar'⟩]
      rcases htw : rest.takeWhile notRbr with _ | ⟨x, xs⟩
      · rw [htw] at h
        simp at h
      · rcases hdw : rest.dropWhile notRbr with _ | ⟨c1, cs1⟩
        · rw [htw, hdw] at h
          simp at h
        · rcases cs1 with _ | ⟨c2, cs2⟩
          · rw [htw, hdw] at h
            simp at h
          · rw [htw, hdw] at h
            simp only [List.map_cons] at h
            split at h
            · rename_i hrr
              have hc1 : c1 = rbr := toLower_eq_rbr.mp hrr.1
              have hc2 : c2 = rbr := toLower_eq_rbr.mp hrr.2
              dsimp only
              rw [if_pos ⟨hc1, hc2⟩]
              rfl
            · simp at h
    · exact absurd h (by simp)

/-- Lowercasing cannot create a placeholder token. -/
theorem hasTokL_map_toLower_false (l : List Char) (h : hasTokL l = false) :
    hasTokL (l.map Char.toLower) = false := by
  induction l with
  | nil => rfl
  | cons c cs ih =>
    rw [hasTokL] at h
    rw [Bool.or_eq_false_iff] at h
    rw [List.map_cons, hasTokL, Bool.or_eq_false_iff]
    refine ⟨?_, ih h.2⟩
    by_contra hsome
    rw [Bool.not_eq_false] at hsome
    have := tryTok_isSome_of_map (c :: cs) (by simpa using hsome)
    rw [this] at h
    simp at h

/-- The characters of the uid sentinel, spelled out. -/
theorem uidTok_data :
    uidTokStr.data = [lbr, lbr, 'p', '|', 'u', 'i', 'd', rbr, rbr] := rfl

/-- A uid-sentinel occurrence (case-insensitive) is a placeholder token. -/
theorem uidAtHead_hasTok (l : List Char) (h : uidAtHead l = true) :
    (tryTok l).isSome = true := by
  match l with
  | [] => exact absurd h (by decide)
  | [c1] => simp [uidAtHead, uidTok_data] at h
  | [c1, c2] => simp [uidAtHead, uidTok_data] at h
  | [c1, c2, c3] => simp [uidAtHead, uidTok_data] at h
  | [c1, c2, c3, c4] => simp [uidAtHead, uidTok_data] at h
  | [c1, c2, c3, c4, c5] => simp [uidAtHead, uidTok_data] at h
  | [c1, c2, c3, c4, c5, c6] => simp [uidAtHead, uidTok_data] at h
  | [c1, c2, c3, c4, c5, c6, c7] => simp [uidAtHead, uidTok_data] at h
  | [c1, c2, c3, c4, c5, c6, c7, c8] => simp [uidAtHead, uidTok_data] at h
  | c1 :: c2 :: c3 :: c4 :: c5 :: c6 :: c7 :: c8 :: c9 :: rest =>
    simp only [uidAtHead, decide_eq_true_eq, uidTok_data, List.take_succ_cons, List.take_zero,
      List.map_cons, List.map_nil, List.cons.injEq, and_true] at h
    obtain ⟨h1, h2, h3, h4, h5, h6, h7, h8, h9⟩ := h
    have e1 : c1 = lbr := toLower_eq_lbr.mp h1
    have e2 : c2 = lbr := toLower_eq_lbr.mp h2
    have e3 : c3 = 'p' ∨ c3 = 'P' := toLower_eq_p.mp h3
    have e4 : c4 = '|' := toLower_eq_bar.mp h4
    have e5 : c5 ≠ rbr := toLower_ne_of_ne (by decide) (by rw [h5]; decide)
    have e6 : c6 ≠ rbr := toLower_ne_of_ne (by decide) (by rw [h6]; decide)
    have e7 : c7 ≠ rbr := toLower_ne_of_ne (by decide) (by rw [h7]; decide)
    have e8 : c8 = rbr := toLower_eq_rbr.mp h8
    have e9 : c9 = rbr := toLower_eq_rbr.mp h9
    subst e1 e2 e4 e8 e9
    rw [tryTok, if_pos ⟨rfl, rfl, e3, rfl⟩]
    rw [List.takeWhile_cons_of_pos (by simp [notRbr, e5]),
      List.takeWhile_cons_of_pos (by simp [notRbr, e6]),
      List.takeWhile_cons_of_pos (by simp [notRbr, e7]),
      List.takeWhile_cons_of_neg (by simp [notRbr])]
    rw [List.dropWhile_cons_of_pos (by simp [notRbr, e5]),
      List.dropWhile_cons_of_pos (by simp [notRbr, e6]),
      List.dropWhile_cons_of_pos (by simp [notRbr, e7]),
      List.dropWhile_cons_of_neg (by simp [notRbr])]
    dsimp only
    rw [if_pos ⟨rfl, rfl⟩]
    rfl

/-- An exact uid-sentinel prefix is a placeholder token. -/
theorem isPrefix_uid_hasTok (l : List Char) (h : isPrefixL uidTokStr.data l = true) :
    (tryTok l).isSome = true := by
  apply uidAtHead_hasTok
  match l with
  | [] => exact absurd h (by decide)
  | [c1] => simp [isPrefixL, uidTok_data] at h
  | [c1, c2] => simp [isPrefixL, uidTok_data] at h
  | [c1, c2, c3] => simp [isPrefixL, uidTok_data] at h
  | [c1, c2, c3, c4] => simp [isPrefixL, uidTok_data] at h
  | [c1, c2, c3, c4, c5] => simp [isPrefixL, uidTok_data] at h
  | [c1, c2, c3, c4, c5, c6] => simp [isPrefixL, uidTok_data] at h
  | [c1, c2, c3, c4, c5, c6, c7] => simp [isPrefixL, uidTok_data] at h
  | [c1, c2, c3, c4, c5, c6, c7, c8] => simp [isPrefixL, uidTok_data] at h
  | c1 :: c2 :: c3 :: c4 :: c5 :: c6 :: c7 :: c8 :: c9 :: rest =>
    rw [uidTok_data] at h
    simp only [isPrefixL, Bool.and_eq_true, decide_eq_true_eq] at h
    obtain ⟨e1, e2, e3, e4, e5, e6, e7, e8, e9, -⟩ := h
    subst e1 e2 e3 e4 e5 e6 e7 e8 e9
    simp [uidAtHead, uidTok_data]
    exact ⟨by decide, by decide⟩

/-- A list with no placeholder token has no uid-sentinel occurrence, so the
uid replacement pass leaves it unchanged. -/
theorem replUidAux_no_occ (rep : List Char) (l : List Char) (h : hasTokL l = false) :
    replUidAux rep l = l := by
  induction l with
  | nil => exact replUidAux_nil rep
  | cons c cs ih =>
    rw [hasTokL] at h
    rw [Bool.or_eq_false_iff] at h
    have hhd : uidAtHead (c :: cs) = false := by
      by_contra hu
      rw [Bool.not_eq_false] at hu
      have := uidAtHead_hasTok (c :: cs) hu
      rw [this] at h
      simp at h
    rw [replUidAux_cons, hhd]
    simp only [Bool.false_eq_true, if_false]
    rw [ih h.2]

/-- A list with no placeholder token does not contain the uid sentinel. -/
theorem hasSub_uid_false (l : List Char) (h : hasTokL l = false) :
    hasSubL uidTokStr.data l = false := by
  induction l with
  | nil => rfl
  | cons c cs ih =>
    rw [hasTokL] at h
    rw [Bool.or_eq_false_iff] at h
    rw [hasSubL, Bool.or_eq_false_iff]
    refine ⟨?_, ih h.2⟩
    by_contra hp
    rw [Bool.not_eq_false] at hp
    have := isPrefix_uid_hasTok (c :: cs) hp
    rw [this] at h
    simp at h

/-- Claim C9: a template with no placeholder tokens and no wildcard
characters resolves to itself, with no uid. -/
theorem claim_C9 (env : MachineEnv) (gd : GameData) (fs : FS) (templatedPath : String)
    (g : Option String)
    (htok : hasTokL templatedPath.data = false)
    (hstar : templatedPath.data.contains '*' = false) :
    resolveTemplatedBackupPath env gd fs templatedPath g = some ⟨templatedPath, none⟩ := by
  have hsub : substTemplate env gd g templatedPath = templatedPath := by
    unfold substTemplate
    rw [replTokAux_no_match _ _ htok]
  unfold resolveTemplatedBackupPath
  rw [hsub]
  have hlow : hasTokL (templatedPath.data.map Char.toLower) = false :=
    hasTokL_map_toLower_false _ htok
  have hur : unresolvedRemains templatedPath = false := by
    unfold unresolvedRemains
    rw [replUidAux_no_occ _ _ hlow]
    exact hlow
  have hcs : containsSub templatedPath uidTokStr = false := hasSub_uid_false _ htok
  rw [hur, hcs]
  simp

/-- Witness for C9 at a literal Windows path. -/
theorem claim_C9_witness :
    resolveTemplatedBackupPath sampleEnv sampleGd [] "C:\\saves" none =
      some ⟨"C:\\saves", none⟩ :=
  claim_C9 sampleEnv sampleGd [] "C:\\saves" none (by decide) (by decide)

/-- No placeholder token can start at a character other than the opening
brace. -/
theorem tryTok_head_ne {c : Char} (hc : c ≠ lbr) (cs : List Char) :
    tryTok (c :: cs) = none := by
  match cs with
  | [] => rfl
  | [b] => rfl
  | [b, p] => rfl
  | b :: p :: bar :: rest =>
    rw [tryTok, if_neg]
    intro hcl
    exact hc hcl.1

/-- The token replacement pass passes over a brace-free prefix unchanged. -/
theorem replTokAux_clean_append (f : String → String) :
    ∀ (l1 : List Char), (∀ c ∈ l1, c ≠ lbr) → ∀ l2,
      replTokAux f (l1 ++ l2) = l1 ++ replTokAux f l2
  | [], _, l2 => by simp
  | c :: cs, h, l2 => by
    rw [List.cons_append, replTokAux_cons, tryTok_head_ne (h c (List.mem_cons_self c cs))]
    show c :: replTokAux f (cs ++ l2) = (c :: cs) ++ replTokAux f l2
    rw [replTokAux_clean_append f cs (fun x hx => h x (List.mem_cons_of_mem c hx)) l2]
    rfl

/-- takeWhile over a prefix every element of which satisfies the
predicate. -/
theorem takeWhile_all_append (p : Char → Bool) :
    ∀ (l1 : List Char), (∀ c ∈ l1, p c = true) → ∀ l2,
      (l1 ++ l2).takeWhile p = l1 ++ l2.takeWhile p
  | [], _, l2 => by simp
  | c :: cs, h, l2 => by
    rw [List.cons_append, List.takeWhile_cons_of_pos (h c (List.mem_cons_self c cs)),
      takeWhile_all_append p cs (fun x hx => h x (List.mem_cons_of_mem c hx)) l2]
    rfl

/-- dropWhile over a prefix every element of which satisfies the
predicate. -/
theorem dropWhile_all_append (p : Char → Bool) :
    ∀ (l1 : List Char), (∀ c ∈ l1, p c = true) → ∀ l2,
      (l1 ++ l2).dropWhile p = l2.dropWhile p
  | [], _, l2 => by simp
  | c :: cs, h, l2 => by
    rw [List.cons_append, List.dropWhile_cons_of_pos (h c (List.mem_cons_self c cs)),
      dropWhile_all_append p cs (fun x hx => h x (List.mem_cons_of_mem c hx)) l2]

/-- The anchored token match succeeds on a well-formed token followed by
anything. -/
theorem tryTok_canon (body rest : List Char) (hne : body ≠ [])
    (hb : ∀ c ∈ body, notRbr c = true) :
    tryTok (lbr :: lbr :: 'p' :: '|' :: ((body ++ [rbr, rbr]) ++ rest)) =
      some (lbr :: lbr :: 'p' :: '|' :: (body ++ [rbr, rbr]), rest) := by
  have he : (body ++ [rbr, rbr]) ++ rest = body ++ (rbr :: rbr :: rest) := by simp
  rw [he, tryTok, if_pos ⟨rfl, rfl, Or.inl rfl, rfl⟩]
  rw [takeWhile_all_append notRbr body hb (rbr :: rbr :: rest)]
  rw [dropWhile_all_append notRbr body hb (rbr :: rbr :: rest)]
  rw [List.takeWhile_cons_of_neg (by decide), List.dropWhile_cons_of_neg (by decide)]
  rw [List.append_nil]
  cases body with
  | nil => exact absurd rfl hne
  | cons b0 bt =>
    dsimp only
    rw [if_pos ⟨rfl, rfl⟩]

/-- The token replacement pass replaces a well-formed token at the head. -/
theorem replTokAux_canon (f : String → String) (body rest : List Char) (hne : body ≠ [])
    (hb : ∀ c ∈ body, notRbr c = true) :
    replTokAux f ((lbr :: lbr :: 'p' :: '|' :: (body ++ [rbr, rbr])) ++ rest) =
      (f ⟨lbr :: lbr :: 'p' :: '|' :: (body ++ [rbr, rbr])⟩).data ++ replTokAux f rest := by
  rw [show (lbr :: lbr :: 'p' :: '|' :: (body ++ [rbr, rbr])) ++ rest
      = lbr :: lbr :: 'p' :: '|' :: ((body ++ [rbr, rbr]) ++ rest) from rfl]
  rw [replTokAux_cons, tryTok_canon body rest hne hb]

/-- Structural facts about each canonical token: its character shape as a
well-formed placeholder token, and the separator-freedom and nonemptiness
of both the token and its numbered identifier. -/
theorem canon_all {t : String} (ht : t ∈ canonicalTokens) :
    (∃ body, t.data = lbr :: lbr :: 'p' :: '|' :: (body ++ [rbr, rbr]) ∧ body ≠ [] ∧
      ∀ c ∈ body, notRbr c = true) ∧
    t.data ≠ [] ∧ (∀ c ∈ t.data, isSep c = false) ∧
    (identCb t).data ≠ [] ∧ (∀ c ∈ (identCb t).data, isSep c = false) := by
  simp only [canonicalTokens, List.mem_cons, List.not_mem_nil, or_false] at ht
  rcases ht with rfl|rfl|rfl|rfl|rfl|rfl|rfl|rfl|rfl|rfl|rfl|rfl|rfl|rfl|rfl|rfl|rfl|rfl
  · exact ⟨⟨"username".data, by decide, by decide, by decide⟩,
      by decide, by decide, by decide, by decide⟩
  · exact ⟨⟨"userprofile".data, by decide, by decide, by decide⟩,
      by decide, by decide, by decide, by decide⟩
  · exact ⟨⟨"appdata".data, by decide, by decide, by decide⟩,
      by decide, by decide, by decide, by decide⟩
  · exact ⟨⟨"localappdata".data, by decide, by decide, by decide⟩,
      by decide, by decide, by decide, by decide⟩
  · exact ⟨⟨"programfiles".data, by decide, by decide, by decide⟩,
      by decide, by decide, by decide, by decide⟩
  · exact ⟨⟨"programdata".data, by decide, by decide, by decide⟩,
      by decide, by decide, by decide, by decide⟩
  · exact ⟨⟨"public".data, by decide, by decide, by decide⟩,
      by decide, by decide, by decide, by decide⟩
  · exact ⟨⟨"windir".data, by decide, by decide, by decide⟩,
      by decide, by decide, by decide, by decide⟩
  · exact ⟨⟨"hkcu".data, by decide, by decide, by decide⟩,
      by decide, by decide, by decide, by decide⟩
  · exact ⟨⟨"hklm".data, by decide, by decide, by decide⟩,
      by decide, by decide, by decide, by decide⟩
  · exact ⟨⟨"wow64".data, by decide, by decide, by decide⟩,
      by decide, by decide, by decide, by decide⟩
  · exact ⟨⟨"osxhome".data, by decide, by decide, by decide⟩,
      by decide, by decide, by decide, by decide⟩
  · exact ⟨⟨"linuxhome".data, by decide, by decide, by decide⟩,
      by decide, by decide, by decide, by decide⟩
  · exact ⟨⟨"xdgdatahome".data, by decide, by decide, by decide⟩,
      by decide, by decide, by decide, by decide⟩
  · exact ⟨⟨"xdgconfighome".data, by decide, by decide, by decide⟩,
      by decide, by decide, by decide, by decide⟩
  · exact ⟨⟨"game".data, by decide, by decide, by decide⟩,
      by decide, by decide, by decide, by decide⟩
  · exact ⟨⟨"steam".data, by decide, by decide, by decide⟩,
      by decide, by decide, by decide, by decide⟩
  · exact ⟨⟨"uplay".data, by decide, by decide, by decide⟩,
      by decide, by decide, by decide, by decide⟩

/-- The token replacement pass consumes a canonical token at the head and
substitutes its image. -/
theorem replTokAux_tok_string (f : String → String) (s : String) (rest : List Char)
    (hmem : s ∈ canonicalTokens) :
    replTokAux f (s.data ++ rest) = (f s).data ++ replTokAux f rest := by
  obtain ⟨body, hdata, hbne, hbcl⟩ := (canon_all hmem).1
  have h2 := replTokAux_canon f body rest hbne hbcl
  rw [← hdata] at h2
  exact h2

/-- The components of a clean literal segment. -/
theorem cleanLit_props {s : String} (h : cleanLitB s = true) :
    s.data ≠ [] ∧ (∀ c ∈ s.data, isSep c = false ∧ c ≠ lbr ∧ c ≠ rbr ∧ c ≠ '*') ∧
      s ≠ "." ∧ s ≠ ".." := by
  rw [cleanLitB, Bool.and_eq_true] at h
  obtain ⟨h3, hd2⟩ := h
  rw [Bool.and_eq_true] at h3
  obtain ⟨h4, hd1⟩ := h3
  rw [Bool.and_eq_true, List.all_eq_true] at h4
  refine ⟨by simpa using h4.1, fun c hc => ?_, by simpa using hd1, by simpa using hd2⟩
  have h2 := h4.2 c hc
  simp only [Bool.and_eq_true, Bool.not_eq_true', decide_eq_true_eq] at h2
  exact ⟨h2.1.1.1, h2.1.1.2, h2.1.2, h2.2⟩

/-- The token replacement pass passes over a clean literal segment. -/
theorem replTokAux_lit_string (f : String → String) (s : String) (rest : List Char)
    (hcl : cleanLitB s = true) :
    replTokAux f (s.data ++ rest) = s.data ++ replTokAux f rest :=
  replTokAux_clean_append f s.data
    (fun c hc => ((cleanLit_props hcl).2.1 c hc).2.1) rest

/-- The token replacement pass distributes over the backslash join of
segments of the amended class, acting on each segment separately. -/
theorem replTok_join (f : String → String) :
    ∀ (segs : List String), (∀ s ∈ segs, okSeg s = true) →
      replTokAux f (joinSepL (segs.map String.data)) =
        joinSepL ((segs.map (segImage f)).map String.data)
  | [], _ => by simp [joinSepL, replTokAux_nil]
  | [s], hok => by
    have hs := hok s (List.mem_cons_self s [])
    show replTokAux f s.data = (segImage f s).data
    cases hc : canonicalTokens.contains s with
    | true =>
      rw [segImage, if_pos hc]
      have h2 := replTokAux_tok_string f s [] (by simpa using hc)
      rw [List.append_nil, replTokAux_nil, List.append_nil] at h2
      exact h2
    | false =>
      rw [segImage, if_neg (by rw [hc]; simp)]
      have hclean : cleanLitB s = true := by
        rw [okSeg, hc, Bool.or_false] at hs
        exact hs
      have h2 := replTokAux_lit_string f s [] hclean
      rw [List.append_nil, replTokAux_nil, List.append_nil] at h2
      exact h2
  | s :: s2 :: rest, hok => by
    have hs := hok s (List.mem_cons_self s (s2 :: rest))
    have hok2 : ∀ x ∈ s2 :: rest, okSeg x = true :=
      fun x hx => hok x (List.mem_cons_of_mem s hx)
    have ih := replTok_join f (s2 :: rest) hok2
    show replTokAux f (s.data ++ '\\' :: joinSepL ((s2 :: rest).map String.data)) =
      (segImage f s).data ++ '\\' :: joinSepL (((s2 :: rest).map (segImage f)).map String.data)
    have hsep : replTokAux f ('\\' :: joinSepL ((s2 :: rest).map String.data)) =
        '\\' :: joinSepL (((s2 :: rest).map (segImage f)).map String.data) := by
      rw [replTokAux_cons, tryTok_head_ne (by decide)]
      show ('\\' : Char) :: replTokAux f (joinSepL ((s2 :: rest).map String.data)) = _
      rw [ih]
    cases hc : canonicalTokens.contains s with
    | true =>
      rw [segImage, if_pos hc, replTokAux_tok_string f s _ (by simpa using hc), hsep]
    | false =>
      have hclean : cleanLitB s = true := by
        rw [okSeg, hc, Bool.or_false] at hs
        exact hs
      rw [segImage, if_neg (by rw [hc]; simp), replTokAux_lit_string f s _ hclean, hsep]

/-- Separator normalization is the identity on separator-free text. -/
theorem normGo_clean : ∀ (l : List Char), (∀ c ∈ l, isSep c = false) →
    ∀ b, normGo b l = l
  | [], _, b => by rw [normGo]
  | c :: cs, h, b => by
    rw [normGo, if_neg (by rw [h c (List.mem_cons_self c cs)]; simp)]
    rw [normGo_clean cs (fun x hx => h x (List.mem_cons_of_mem c hx)) false]

/-- Separator normalization walks through a non-empty separator-free
prefix and continues with a cleared flag. -/
theorem normGo_clean_append : ∀ (l1 : List Char), l1 ≠ [] →
    (∀ c ∈ l1, isSep c = false) → ∀ (b : Bool) (l2 : List Char),
      normGo b (l1 ++ l2) = l1 ++ normGo false l2
  | [], hne, _, _, _ => absurd rfl hne
  | [c], _, h, b, l2 => by
    rw [List.singleton_append, normGo,
      if_neg (by rw [h c (List.mem_cons_self c [])]; simp)]
    rfl
  | c :: c2 :: ct, _, h, b, l2 => by
    rw [List.cons_append, normGo,
      if_neg (by rw [h c (List.mem_cons_self c (c2 :: ct))]; simp)]
    rw [normGo_clean_append (c2 :: ct) (by simp)
      (fun x hx => h x (List.mem_cons_of_mem c hx)) false l2]
    rfl

/-- Separator normalization is the identity on a backslash join of
non-empty separator-free parts. -/
theorem normGo_join : ∀ (parts : List String),
    (∀ p ∈ parts, p.data ≠ [] ∧ ∀ c ∈ p.data, isSep c = false) →
    ∀ b, normGo b (joinSepL (parts.map String.data)) = joinSepL (parts.map String.data)
  | [], _, b => by rw [List.map_nil, joinSepL, normGo]
  | [p], h, b => by
    exact normGo_clean p.data (h p (List.mem_cons_self p [])).2 b
  | p :: q :: rest, h, b => by
    have hp := h p (List.mem_cons_self p (q :: rest))
    show normGo b (p.data ++ '\\' :: joinSepL ((q :: rest).map String.data)) =
      p.data ++ '\\' :: joinSepL ((q :: rest).map String.data)
    rw [normGo_clean_append p.data hp.1 hp.2 b]
    have hsep : normGo false ('\\' :: joinSepL ((q :: rest).map String.data)) =
        '\\' :: normGo true (joinSepL ((q :: rest).map String.data)) := by
      rw [normGo, if_pos (by decide)]
      simp
    rw [hsep, normGo_join (q :: rest) (fun x hx => h x (List.mem_cons_of_mem p hx)) true]

/-- The character-level split never returns an empty list of parts. -/
theorem splitL_ne_nil (sep : Char → Bool) : ∀ (l : List Char), splitL sep l ≠ []
  | [] => by simp [splitL]
  | c :: cs => by
    simp only [splitL]
    split <;> simp

/-- Splitting separator-free text yields a single part. -/
theorem splitL_no_sep (sep : Char → Bool) : ∀ (l : List Char),
    (∀ c ∈ l, sep c = false) → splitL sep l = [l]
  | [], _ => rfl
  | c :: cs, h => by
    have ih := splitL_no_sep sep cs (fun x hx => h x (List.mem_cons_of_mem c hx))
    simp [splitL, ih, h c (List.mem_cons_self c cs)]

/-- Splitting distributes over a separator-free prefix. -/
theorem splitL_clean_append (sep : Char → Bool) :
    ∀ (l1 : List Char), (∀ c ∈ l1, sep c = false) → ∀ (l2 : List Char),
      splitL sep (l1 ++ l2) =
        (l1 ++ (splitL sep l2).headI) :: (splitL sep l2).tail
  | [], _, l2 => by
    rcases hsp : splitL sep l2 with _ | ⟨h0, t0⟩
    · exact absurd hsp (splitL_ne_nil sep l2)
    · simp [hsp]
  | c :: cs, h, l2 => by
    have ih := splitL_clean_append sep cs (fun x hx => h x (List.mem_cons_of_mem c hx)) l2
    simp [splitL, ih, h c (List.mem_cons_self c cs)]

/-- Splitting a backslash join of backslash-free parts recovers the
parts. -/
theorem splitL_join : ∀ (parts : List String), parts ≠ [] →
    (∀ p ∈ parts, ∀ c ∈ p.data, c ≠ '\\') →
    splitL (fun c => c = '\\') (joinSepL (parts.map String.data)) = parts.map String.data
  | [], hne, _ => absurd rfl hne
  | [p], _, h => by
    show splitL (fun c => c = '\\') (joinSepL [p.data]) = [p.data]
    exact splitL_no_sep _ p.data
      (fun c hc => decide_eq_false (h p (List.mem_cons_self p []) c hc))
  | p :: q :: rest, _, h => by
    show splitL (fun c => c = '\\')
        (p.data ++ '\\' :: joinSepL ((q :: rest).map String.data)) =
      p.data :: (q :: rest).map String.data
    rw [splitL_clean_append _ p.data
      (fun c hc => decide_eq_false (h p (List.mem_cons_self p (q :: rest)) c hc)) _]
    have hstep : splitL (fun c => c = '\\')
        ('\\' :: joinSepL ((q :: rest).map String.data)) =
        [] :: splitL (fun c => c = '\\') (joinSepL ((q :: rest).map String.data)) := by
      simp [splitL]
    rw [hstep,
      splitL_join (q :: rest) (by simp) (fun x hx => h x (List.mem_cons_of_mem p hx))]
    simp

/-- The string-level split recovers the parts of a backslash join. -/
theorem jsSplit_join (parts : List String) (hne : parts ≠ [])
    (h : ∀ p ∈ parts, ∀ c ∈ p.data, c ≠ '\\') :
    jsSplit ⟨joinSepL (parts.map String.data)⟩ (fun c => c = '\\') = parts := by
  show (splitL (fun c => c = '\\')
    (joinSepL (parts.map String.data))).map (fun l => (⟨l⟩ : String)) = parts
  rw [splitL_join parts hne h, List.map_map]
  have hid : ((fun l => (⟨l⟩ : String)) ∘ String.data) = id := funext (fun s => rfl)
  rw [hid, List.map_id]

/-- The components of a segment of the amended class. -/
theorem okSeg_props {s : String} (hs : okSeg s = true) :
    s.data ≠ [] ∧ ∀ c ∈ s.data, isSep c = false := by
  cases hc : canonicalTokens.contains s with
  | true =>
    have h2 := canon_all (t := s) (by simpa using hc)
    exact ⟨h2.2.1, h2.2.2.1⟩
  | false =>
    have hclean : cleanLitB s = true := by
      rw [okSeg, hc, Bool.or_false] at hs
      exact hs
    exact ⟨(cleanLit_props hclean).1, fun c hc2 => ((cleanLit_props hclean).2.1 c hc2).1⟩

/-- The components of the identifier image of a segment of the amended
class. -/
theorem segIdent_props {s : String} (hs : okSeg s = true) :
    (segImage identCb s).data ≠ [] ∧ ∀ c ∈ (segImage identCb s).data, isSep c = false := by
  cases hc : canonicalTokens.contains s with
  | true =>
    rw [segImage, if_pos hc]
    have h2 := canon_all (t := s) (by simpa using hc)
    exact ⟨h2.2.2.2.1, h2.2.2.2.2⟩
  | false =>
    rw [segImage, if_neg (by rw [hc]; simp)]
    exact okSeg_props hs

/-- Splitting the identifier-normalized template recovers the identifier
image of each segment. -/
theorem splitTemplatePath_join (segs : List String) (hne : segs ≠ [])
    (hok : ∀ s ∈ segs, okSeg s = true) :
    splitTemplatePath (joinBS segs) = segs.map (segImage identCb) := by
  show jsSplit (winNorm ⟨replTokAux identCb (joinSepL (segs.map String.data))⟩)
    (fun c => c = '\\') = segs.map (segImage identCb)
  rw [replTok_join identCb segs hok]
  have hprops : ∀ p ∈ segs.map (segImage identCb),
      p.data ≠ [] ∧ ∀ c ∈ p.data, isSep c = false := by
    intro p hp
    obtain ⟨s, hsm, rfl⟩ := List.mem_map.mp hp
    exact segIdent_props (hok s hsm)
  show jsSplit ⟨normGo false (joinSepL ((segs.map (segImage identCb)).map String.data))⟩
    (fun c => c = '\\') = segs.map (segImage identCb)
  rw [normGo_join (segs.map (segImage identCb)) hprops false]
  exact jsSplit_join (segs.map (segImage identCb)) (by simpa using hne)
    (fun p hp c hc => by
      have := (hprops p hp).2 c hc
      intro he
      rw [he] at this
      simp [isSep] at this)

/-- The Windows join of the segments of the amended class is their
backslash join. -/
theorem pathJoin_join (segs : List String) (hne : segs ≠ [])
    (hok : ∀ s ∈ segs, okSeg s = true) :
    pathJoin segs = joinBS segs := by
  have hkeep : segs.filter (fun s => s ≠ "") = segs := by
    apply List.filter_eq_self.mpr
    intro s hs
    have h2 := (okSeg_props (hok s hs)).1
    simpa using fun he => h2 (by rw [he])
  rw [pathJoin, hkeep, if_neg (by simpa using hne)]
  show (⟨normGo false (joinSepL (segs.map String.data))⟩ : String) = joinBS segs
  rw [normGo_join segs (fun p hp => okSeg_props (hok p hp)) false]
  rfl

/-- No numbered identifier can start at a brace-free position. -/
theorem pnumAt_no_lbr : ∀ (l : List Char), (∀ c ∈ l, c ≠ lbr) → pnumAt l = false
  | [], _ => rfl
  | [a], _ => rfl
  | [a, b], _ => rfl
  | a :: b :: p :: rest, h => by
    simp only [pnumAt]
    simp [h a (List.mem_cons_self a (b :: p :: rest))]

/-- A brace-free segment holds no numbered identifier. -/
theorem hasPNumTok_no_lbr : ∀ (l : List Char), (∀ c ∈ l, c ≠ lbr) → hasPNumTok l = false
  | [], _ => rfl
  | c :: cs, h => by
    rw [hasPNumTok, pnumAt_no_lbr (c :: cs) h,
      hasPNumTok_no_lbr cs (fun x hx => h x (List.mem_cons_of_mem c hx))]
    rfl

/-- A list with no asterisk does not contain one. -/
theorem contains_star_false (l : List Char) (h : ∀ c ∈ l, c ≠ '*') :
    l.contains '*' = false := by
  by_contra hc
  rw [Bool.not_eq_false] at hc
  have hm : '*' ∈ l := by simpa using hc
  exact h '*' hm rfl

/-- A list is a prefix of itself. -/
theorem isPrefixL_refl : ∀ (l : List Char), isPrefixL l l = true
  | [] => rfl
  | c :: cs => by simp [isPrefixL, isPrefixL_refl cs]

/-- Replacing a string by another inside itself yields the replacement. -/
theorem jsReplaceFirst_self (p r : String) (hne : p.data ≠ []) :
    jsReplaceFirst p p r = r := by
  rw [jsReplaceFirst]
  rcases hpd : p.data with _ | ⟨c, cs⟩
  · exact absurd hpd hne
  · rw [replFirstL, if_pos (isPrefixL_refl (c :: cs)), List.drop_length, List.append_nil]

/-- One step of the finalization walk over a plain literal segment. -/
theorem finalizeGo_lit_step (env : MachineEnv) (gd : GameData) (u g : Option String)
    (rp rest : List String) (i : Nat) (acc : List String) (s : String)
    (hnum : hasPNumTok s.data = false) (hstar : s.data.contains '*' = false) :
    finalizeGo env gd u g rp (s :: rest) i acc =
      finalizeGo env gd u g rp rest (i + 1) (s :: acc) := by
  rw [finalizeGo, if_neg (by rw [hnum]; simp), if_neg (by rw [hstar]; simp)]

/-- One step of the finalization walk over the game identifier. -/
theorem finalizeGo_p11_step (env : MachineEnv) (gd : GameData) (u g : Option String)
    (rp rest : List String) (i : Nat) (acc : List String) :
    finalizeGo env gd u g rp (pTok11 :: rest) i acc =
      finalizeGo env gd u g rp rest
        (i + (jsSplit (jsStr g) (fun c => c = '\\')).length)
        ("\x7b\x7bp|game\x7d\x7d" :: acc) := by
  rw [finalizeGo, if_pos (by decide), if_neg (by decide), if_pos rfl,
    jsReplaceFirst_self pTok11 (jsStr g) (by decide),
    show (findKeyByValue placeholderIdentifier pTok11).getD pTok11 = "\x7b\x7bp|game\x7d\x7d"
      from by decide]

/-- One step of the finalization walk over the steam identifier. -/
theorem finalizeGo_p13_step (env : MachineEnv) (gd : GameData) (u g : Option String)
    (rp rest : List String) (i : Nat) (acc : List String) :
    finalizeGo env gd u g rp (pTok13 :: rest) i acc =
      finalizeGo env gd u g rp rest
        (i + (jsSplit (jsStr gd.steamPath) (fun c => c = '\\')).length)
        ("\x7b\x7bp|steam\x7d\x7d" :: acc) := by
  rw [finalizeGo, if_pos (by decide), if_neg (by decide), if_neg (by decide), if_pos rfl,
    jsReplaceFirst_self pTok13 (jsStr gd.steamPath) (by decide),
    show (findKeyByValue placeholderIdentifier pTok13).getD pTok13 = "\x7b\x7bp|steam\x7d\x7d"
      from by decide]

/-- One step of the finalization walk over the uplay identifier. -/
theorem finalizeGo_p14_step (env : MachineEnv) (gd : GameData) (u g : Option String)
    (rp rest : List String) (i : Nat) (acc : List String) :
    finalizeGo env gd u g rp (pTok14 :: rest) i acc =
      finalizeGo env gd u g rp rest
        (i + (jsSplit (jsStr gd.ubisoftPath) (fun c => c = '\\')).length)
        ("\x7b\x7bp|uplay\x7d\x7d" :: acc) := by
  rw [finalizeGo, if_pos (by decide), if_neg (by decide), if_neg (by decide),
    if_neg (by decide), if_pos rfl,
    jsReplaceFirst_self pTok14 (jsStr gd.ubisoftPath) (by decide),
    show (findKeyByValue placeholderIdentifier pTok14).getD pTok14 = "\x7b\x7bp|uplay\x7d\x7d"
      from by decide]

/-- One step of the finalization walk over a generic numbered identifier
taken from the static tables. -/
theorem finalizeGo_pnum_step (env : MachineEnv) (gd : GameData) (u g : Option String)
    (rp rest : List String) (i : Nat) (acc : List String) (pn t pm : String)
    (hnum : hasPNumTok pn.data = true) (h12 : pn ≠ pTok12) (h11 : pn ≠ pTok11)
    (h13 : pn ≠ pTok13) (h14 : pn ≠ pTok14)
    (hfind : findKeyByValue placeholderIdentifier pn = some t)
    (hlook : lookupA (placeholderMapping env) t = some pm) :
    finalizeGo env gd u g rp (pn :: rest) i acc =
      finalizeGo env gd u g rp rest (i + (jsSplit pm (fun c => c = '\\')).length)
        (t :: acc) := by
  rw [finalizeGo, if_pos hnum, if_neg h12, if_neg h11, if_neg h13, if_neg h14, hfind,
    Option.getD_some, hlook]

/-- The finalization walk over the identifier images of segments of the
amended class reproduces the original segments, for any cursor and
accumulator. -/
theorem finalizeGo_ok (env : MachineEnv) (gd : GameData) (u g : Option String)
    (rp : List String) :
    ∀ (segs : List String), (∀ s ∈ segs, okSeg s = true) →
      ∀ (i : Nat) (acc : List String),
        finalizeGo env gd u g rp (segs.map (segImage identCb)) i acc =
          some (acc.reverse ++ segs)
  | [], _, i, acc => by rw [List.map_nil, finalizeGo, List.append_nil]
  | s :: rest, hok, i, acc => by
    have ihok : ∀ x ∈ rest, okSeg x = true := fun x hx => hok x (List.mem_cons_of_mem s hx)
    rw [List.map_cons]
    cases hc : canonicalTokens.contains s with
    | false =>
      have hclean : cleanLitB s = true := by
        have hs := hok s (List.mem_cons_self s rest)
        rw [okSeg, hc, Bool.or_false] at hs
        exact hs
      have hcp := cleanLit_props hclean
      have hnl : ∀ c ∈ s.data, c ≠ lbr := fun c hcm => (hcp.2.1 c hcm).2.1
      have hns : ∀ c ∈ s.data, c ≠ '*' := fun c hcm => (hcp.2.1 c hcm).2.2.2
      rw [segImage, if_neg (by rw [hc]; simp)]
      rw [finalizeGo_lit_step env gd u g rp _ i acc s (hasPNumTok_no_lbr s.data hnl)
        (contains_star_false s.data hns)]
      rw [finalizeGo_ok env gd u g rp rest ihok (i + 1) (s :: acc)]
      simp
    | true =>
      rw [segImage, if_pos hc]
      have hmem : s ∈ canonicalTokens := by simpa using hc
      simp only [canonicalTokens, List.mem_cons, List.not_mem_nil, or_false] at hmem
      rcases hmem with rfl|rfl|rfl|rfl|rfl|rfl|rfl|rfl|rfl|rfl|rfl|rfl|rfl|rfl|rfl|rfl|rfl|rfl
      · rw [show identCb "\x7b\x7bp|username\x7d\x7d" = "\x7b\x7bp1\x7d\x7d" from by decide,
          finalizeGo_pnum_step env gd u g rp _ i acc _ "\x7b\x7bp|username\x7d\x7d"
            env.username (by decide) (by decide) (by decide) (by decide) (by decide)
            (by decide) rfl,
          finalizeGo_ok env gd u g rp rest ihok _ _]
        simp
      · rw [show identCb "\x7b\x7bp|userprofile\x7d\x7d" = "\x7b\x7bp2\x7d\x7d" from by decide,
          finalizeGo_pnum_step env gd u g rp _ i acc _ "\x7b\x7bp|userprofile\x7d\x7d"
            env.userprofile (by decide) (by decide) (by decide) (by decide) (by decide)
            (by decide) rfl,
          finalizeGo_ok env gd u g rp rest ihok _ _]
        simp
      · rw [show identCb "\x7b\x7bp|appdata\x7d\x7d" = "\x7b\x7bp5\x7d\x7d" from by decide,
          finalizeGo_pnum_step env gd u g rp _ i acc _ "\x7b\x7bp|appdata\x7d\x7d"
            env.appdata (by decide) (by decide) (by decide) (by decide) (by decide)
            (by decide) rfl,
          finalizeGo_ok env gd u g rp rest ihok _ _]
        simp
      · rw [show identCb "\x7b\x7bp|localappdata\x7d\x7d" = "\x7b\x7bp6\x7d\x7d" from by decide,
          finalizeGo_pnum_step env gd u g rp _ i acc _ "\x7b\x7bp|localappdata\x7d\x7d"
            env.localappdata (by decide) (by decide) (by decide) (by decide) (by decide)
            (by decide) rfl,
          finalizeGo_ok env gd u g rp rest ihok _ _]
        simp
      · rw [show identCb "\x7b\x7bp|programfiles\x7d\x7d" = "\x7b\x7bp7\x7d\x7d" from by decide,
          finalizeGo_pnum_step env gd u g rp _ i acc _ "\x7b\x7bp|programfiles\x7d\x7d"
            env.programfiles (by decide) (by decide) (by decide) (by decide) (by decide)
            (by decide) rfl,
          finalizeGo_ok env gd u g rp rest ihok _ _]
        simp
      · rw [show identCb "\x7b\x7bp|programdata\x7d\x7d" = "\x7b\x7bp8\x7d\x7d" from by decide,
          finalizeGo_pnum_step env gd u g rp _ i acc _ "\x7b\x7bp|programdata\x7d\x7d"
            env.programdata (by decide) (by decide) (by decide) (by decide) (by decide)
            (by decide) rfl,
          finalizeGo_ok env gd u g rp rest ihok _ _]
        simp
      · rw [show identCb "\x7b\x7bp|public\x7d\x7d" = "\x7b\x7bp9\x7d\x7d" from by decide,
          finalizeGo_pnum_step env gd u g rp _ i acc _ "\x7b\x7bp|public\x7d\x7d"
            env.publicDir (by decide) (by decide) (by decide) (by decide) (by decide)
            (by decide) rfl,
          finalizeGo_ok env gd u g rp rest ihok _ _]
        simp
      · rw [show identCb "\x7b\x7bp|windir\x7d\x7d" = "\x7b\x7bp10\x7d\x7d" from by decide,
          finalizeGo_pnum_step env gd u g rp _ i acc _ "\x7b\x7bp|windir\x7d\x7d"
            env.windir (by decide) (by decide) (by decide) (by decide) (by decide)
            (by decide) rfl,
          finalizeGo_ok env gd u g rp rest ihok _ _]
        simp
      · rw [show identCb "\x7b\x7bp|hkcu\x7d\x7d" = "\x7b\x7bp15\x7d\x7d" from by decide,
          finalizeGo_pnum_step env gd u g rp _ i acc _ "\x7b\x7bp|hkcu\x7d\x7d"
            "HKEY_CURRENT_USER" (by decide) (by decide) (by decide) (by decide) (by decide)
            (by decide) rfl,
          finalizeGo_ok env gd u g rp rest ihok _ _]
        simp
      · rw [show identCb "\x7b\x7bp|hklm\x7d\x7d" = "\x7b\x7bp16\x7d\x7d" from by decide,
          finalizeGo_pnum_step env gd u g rp _ i acc _ "\x7b\x7bp|hklm\x7d\x7d"
            "HKEY_LOCAL_MACHINE" (by decide) (by decide) (by decide) (by decide) (by decide)
            (by decide) rfl,
          finalizeGo_ok env gd u g rp rest ihok _ _]
        simp
      · rw [show identCb "\x7b\x7bp|wow64\x7d\x7d" = "\x7b\x7bp17\x7d\x7d" from by decide,
          finalizeGo_pnum_step env gd u g rp _ i acc _ "\x7b\x7bp|wow64\x7d\x7d"
            "HKEY_LOCAL_MACHINE\\SOFTWARE\\WOW6432Node" (by decide) (by decide) (by decide)
            (by decide) (by decide) (by decide) rfl,
          finalizeGo_ok env gd u g rp rest ihok _ _]
        simp
      · rw [show identCb "\x7b\x7bp|osxhome\x7d\x7d" = "\x7b\x7bp18\x7d\x7d" from by decide,
          finalizeGo_pnum_step env gd u g rp _ i acc _ "\x7b\x7bp|osxhome\x7d\x7d"
            env.osxhome (by decide) (by decide) (by decide) (by decide) (by decide)
            (by decide) rfl,
          finalizeGo_ok env gd u g rp rest ihok _ _]
        simp
      · rw [show identCb "\x7b\x7bp|linuxhome\x7d\x7d" = "\x7b\x7bp19\x7d\x7d" from by decide,
          finalizeGo_pnum_step env gd u g rp _ i acc _ "\x7b\x7bp|linuxhome\x7d\x7d"
            env.linuxhome (by decide) (by decide) (by decide) (by decide) (by decide)
            (by decide) rfl,
          finalizeGo_ok env gd u g rp rest ihok _ _]
        simp
      · rw [show identCb "\x7b\x7bp|xdgdatahome\x7d\x7d" = "\x7b\x7bp20\x7d\x7d" from by decide,
          finalizeGo_pnum_step env gd u g rp _ i acc _ "\x7b\x7bp|xdgdatahome\x7d\x7d"
            env.xdgdatahome (by decide) (by decide) (by decide) (by decide) (by decide)
            (by decide) rfl,
          finalizeGo_ok env gd u g rp rest ihok _ _]
        simp
      · rw [show identCb "\x7b\x7bp|xdgconfighome\x7d\x7d" = "\x7b\x7bp21\x7d\x7d"
            from by decide,
          finalizeGo_pnum_step env gd u g rp _ i acc _ "\x7b\x7bp|xdgconfighome\x7d\x7d"
            env.xdgconfighome (by decide) (by decide) (by decide) (by decide) (by decide)
            (by decide) rfl,
          finalizeGo_ok env gd u g rp rest ihok _ _]
        simp
      · rw [show identCb "\x7b\x7bp|game\x7d\x7d" = pTok11 from by decide,
          finalizeGo_p11_step env gd u g rp _ i acc,
          finalizeGo_ok env gd u g rp rest ihok _ _]
        simp
      · rw [show identCb "\x7b\x7bp|steam\x7d\x7d" = pTok13 from by decide,
          finalizeGo_p13_step env gd u g rp _ i acc,
          finalizeGo_ok env gd u g rp rest ihok _ _]
        simp
      · rw [show identCb "\x7b\x7bp|uplay\x7d\x7d" = pTok14 from by decide,
          finalizeGo_p14_step env gd u g rp _ i acc,
          finalizeGo_ok env gd u g rp rest ihok _ _]
        simp

/-- Claim C1 counterexample: the round trip is not the identity on the
resolved path when the template uses a forward-slash separator; the
finalized template is rebuilt with backslashes, so re-resolving yields a
backslash-separated path different from the original resolved path. -/
theorem claim_C1_counterexample :
    resolveTemplatedBackupPath sampleEnv sampleGd [] "\x7b\x7bp|game\x7d\x7d/s"
        (some "C:\\G") = some ⟨"C:\\G/s", none⟩ ∧
      finalizeTemplate sampleEnv sampleGd "\x7b\x7bp|game\x7d\x7d/s" "C:\\G/s" none
        (some "C:\\G") = some "\x7b\x7bp|game\x7d\x7d\\s" ∧
      resolveTemplatedBackupPath sampleEnv sampleGd [] "\x7b\x7bp|game\x7d\x7d\\s"
        (some "C:\\G") = some ⟨"C:\\G\\s", none⟩ ∧
      ("C:\\G\\s" : String) ≠ "C:\\G/s" := by
  refine ⟨?_, ?_, ?_, by decide⟩
  · simp +decide [resolveTemplatedBackupPath, unresolvedRemains, substTemplate,
      replTokAux_cons, replTokAux_nil, tryTok, resolveCb, normalizeMatch, lookupA,
      placeholderMapping, sampleEnv, sampleGd, jsStr, replUidAux_cons, replUidAux_nil,
      uidAtHead, uidTokStr, hasTokL, containsSub, hasSubL, isPrefixL, lbr, rbr, bs2slash,
      notRbr]
  · have hsplit : splitTemplatePath "\x7b\x7bp|game\x7d\x7d/s" =
        ["\x7b\x7bp11\x7d\x7d", "s"] := by
      simp +decide [splitTemplatePath, replTokAux_cons, replTokAux_nil, tryTok, identCb,
        normalizeMatch, lookupA, placeholderIdentifier, winNorm, normGo, jsSplit, splitL,
        isSep, lbr, rbr, bs2slash, notRbr]
    show (finalizeGo sampleEnv sampleGd none (some "C:\\G")
        (jsSplit "C:\\G/s" (fun c => c = '\\'))
        (splitTemplatePath "\x7b\x7bp|game\x7d\x7d/s") 0 []).map pathJoin =
      some "\x7b\x7bp|game\x7d\x7d\\s"
    rw [hsplit]
    decide
  · simp +decide [resolveTemplatedBackupPath, unresolvedRemains, substTemplate,
      replTokAux_cons, replTokAux_nil, tryTok, resolveCb, normalizeMatch, lookupA,
      placeholderMapping, sampleEnv, sampleGd, jsStr, replUidAux_cons, replUidAux_nil,
      uidAtHead, uidTokStr, hasTokL, containsSub, hasSubL, isPrefixL, lbr, rbr, bs2slash,
      notRbr]

/-- Claim C1 amended: for a backslash-joined template whose segments are
clean literals (non-empty, no separators, braces or wildcards, and neither
of the dot segments resolved away by path.win32.join) or canonical
placeholder tokens, when resolution succeeds with a non-empty path and
the substituted path holds no uid sentinel, finalizeTemplate reproduces
the original template exactly, and resolving it again against the same
context and filesystem yields the same resolved path and uid. -/
theorem claim_C1_amended (env : MachineEnv) (gd : GameData) (fs : FS) (g : Option String)
    (segs : List String) (hne : segs ≠ [])
    (hok : ∀ s ∈ segs, okSeg s = true)
    (hnu : containsSub (substTemplate env gd g (joinBS segs)) uidTokStr = false)
    (r : String) (u : Option String)
    (hres : resolveTemplatedBackupPath env gd fs (joinBS segs) g = some ⟨r, u⟩)
    (hr : r ≠ "") :
    finalizeTemplate env gd (joinBS segs) r u g = some (joinBS segs) ∧
      resolveTemplatedBackupPath env gd fs (joinBS segs) g = some ⟨r, u⟩ := by
  refine ⟨?_, hres⟩
  rw [resolveTemplatedBackupPath] at hres
  cases hur : unresolvedRemains (substTemplate env gd g (joinBS segs)) with
  | true =>
    rw [hur] at hres
    simp at hres
    exact absurd hres.1.symm hr
  | false =>
    rw [hur, hnu] at hres
    simp at hres
    obtain ⟨hrr, huu⟩ := hres
    subst huu
    show (finalizeGo env gd none g (jsSplit r (fun c => c = '\\'))
        (splitTemplatePath (joinBS segs)) 0 []).map pathJoin = some (joinBS segs)
    rw [splitTemplatePath_join segs hne hok,
      finalizeGo_ok env gd none g (jsSplit r (fun c => c = '\\')) segs hok 0 []]
    simp only [List.reverse_nil, List.nil_append, Option.map_some']
    rw [pathJoin_join segs hne hok]

/-- Witness for the amended C1 at a two-segment template of a literal and
the game token. -/
theorem claim_C1_witness :
    finalizeTemplate sampleEnv sampleGd (joinBS ["a", "\x7b\x7bp|game\x7d\x7d"]) "a\\G" none
        (some "G") = some (joinBS ["a", "\x7b\x7bp|game\x7d\x7d"]) ∧
      resolveTemplatedBackupPath sampleEnv sampleGd []
        (joinBS ["a", "\x7b\x7bp|game\x7d\x7d"]) (some "G") = some ⟨"a\\G", none⟩ :=
  claim_C1_amended sampleEnv sampleGd [] (some "G") ["a", "\x7b\x7bp|game\x7d\x7d"]
    (by decide) (by decide)
    (by simp +decide [joinBS, joinSepL, substTemplate, replTokAux_cons, replTokAux_nil,
      tryTok, resolveCb, normalizeMatch, lookupA, placeholderMapping, sampleEnv, sampleGd,
      jsStr, containsSub, hasSubL, isPrefixL, uidTokStr, lbr, rbr, bs2slash, notRbr])
    "a\\G" none
    (by simp +decide [joinBS, joinSepL, resolveTemplatedBackupPath, unresolvedRemains,
      substTemplate, replTokAux_cons, replTokAux_nil, tryTok, resolveCb, normalizeMatch,
      lookupA, placeholderMapping, sampleEnv, sampleGd, jsStr, replUidAux_cons,
      replUidAux_nil, uidAtHead, uidTokStr, hasTokL, containsSub, hasSubL, isPrefixL,
      lbr, rbr, bs2slash, notRbr])
    (by decide)

end GSM
